import Mathlib

/-!
Verification of the jusText boilerplate-removal core against its source
(src/justext/core.py).  The Python code is shallowly embedded: Python
strings become lists of characters, the SAX paragraph maker becomes a
state machine over an explicit event list, the classifier and the
context-sensitive reviser become pure functions on lists of paragraph
records.  Python floats (the density values) are modelled as exact
rationals; machine rounding is immaterial to the properties checked here.
-/

namespace Justext

/-- Python strings are sequences of code points; model them as `List Char`. -/
abbrev Str := List Char

/-- Whitespace set of Python's `str.split()` / `str.strip()` and of the
regex class `\s` on ASCII: space, tab, newline, vertical tab, form feed,
carriage return. -/
def isSpace (c : Char) : Bool :=
  c = ' ' || c = '\t' || c = '\n' || c = '\x0b' || c = '\x0c' || c = '\r'

/-- Embedding of Python `s.strip()`: drop leading and trailing whitespace. -/
def stripChars (s : Str) : Str :=
  ((s.dropWhile isSpace).reverse.dropWhile isSpace).reverse

/-- Helper for `normalize_whitespace`; the flag records whether the
previously emitted character was (the collapse of) whitespace. -/
def normalizeAux : Bool → Str → Str
  | _, [] => []
  | prevSpace, c :: cs =>
    if isSpace c then
      if prevSpace then normalizeAux true cs
      else ' ' :: normalizeAux true cs
    else c :: normalizeAux false cs

/-- Embedding of `normalize_whitespace` (core.py line 230): every maximal
run of whitespace is replaced by a single space, as `re.sub(r"\s+", " ")`
does. -/
def normalize_whitespace (s : Str) : Str := normalizeAux false s

/-- Helper for `splitWs`: accumulates the current word reversed. -/
def splitAux : Str → Str → List Str
  | acc, [] => if acc = [] then [] else [acc.reverse]
  | acc, c :: cs =>
    if isSpace c then
      if acc = [] then splitAux [] cs else acc.reverse :: splitAux [] cs
    else splitAux (c :: acc) cs

/-- Embedding of Python `s.split()` with no argument: maximal runs of
non-whitespace characters, with no empty words. -/
def splitWs (s : Str) : List Str := splitAux [] s

/-- Classification labels used by the classifier and the reviser. -/
inductive Label where
  | good
  | bad
  | short
  | neargood
deriving DecidableEq, Repr

/-- The paragraph record (a Python dict in the source).  Fields added by
later stages carry defaults until those stages run, mirroring the
dictionary growing keys over time. -/
structure Paragraph where
  dom_path : Str := []
  text_nodes : List Str := []
  text : Str := []
  word_count : Nat := 0
  linked_char_count : Nat := 0
  tag_count : Int := 0
  stopword_count : Nat := 0
  stopword_density : ℚ := 0
  link_density : ℚ := 0
  heading : Bool := false
  cfclass : Label := .short
  «class» : Label := .short
deriving DecidableEq, Repr

/-- PARAGRAPH_TAGS from core.py lines 29-32. -/
def PARAGRAPH_TAGS : List Str :=
  (["blockquote", "caption", "center", "col", "colgroup", "dd",
    "div", "dl", "dt", "fieldset", "form", "legend", "optgroup", "option",
    "p", "pre", "table", "td", "textarea", "tfoot", "th", "thead", "tr",
    "ul", "li", "h1", "h2", "h3", "h4", "h5", "h6"] : List String).map
    (fun s => s.toList)

def brTag : Str := "br".toList
def aTag : Str := "a".toList

/-- State of `SaxPragraphMaker` (core.py lines 235-302): the DOM-name
stack, finished paragraphs, the open paragraph buffer, the inside-a-link
flag and the last-was-br flag. -/
structure PMState where
  dom : List Str
  paragraphs : List Paragraph
  paragraph : Paragraph
  link : Bool
  br : Bool
deriving Repr

/-- Dot-joined DOM path, Python `'.'.join(self.dom)`. -/
def joinPath (dom : List Str) : Str := List.intercalate ".".toList dom

def freshParagraph (dom : List Str) : Paragraph :=
  { dom_path := joinPath dom }

/-- Embedding of `SaxPragraphMaker._start_new_pragraph`: if the open
buffer has text nodes, finalize its text (join, strip, normalize) and
append it; then open a fresh buffer at the current DOM path. -/
def start_new_pragraph (st : PMState) : PMState :=
  if st.paragraph.text_nodes ≠ [] then
    let text := normalize_whitespace (stripChars st.paragraph.text_nodes.flatten)
    { st with
      paragraphs := st.paragraphs ++ [{ st.paragraph with text := text }],
      paragraph := freshParagraph st.dom }
  else
    { st with paragraph := freshParagraph st.dom }

/-- Embedding of `SaxPragraphMaker.startElementNS`. -/
def startElementNS (st : PMState) (name : Str) : PMState :=
  let st := { st with dom := st.dom ++ [name] }
  if PARAGRAPH_TAGS.contains name || (name = brTag && st.br) then
    let st :=
      if name = brTag then
        { st with paragraph := { st.paragraph with tag_count := st.paragraph.tag_count - 1 } }
      else st
    start_new_pragraph st
  else
    let st := if name = brTag then { st with br := true } else { st with br := false }
    let st := if name = aTag then { st with link := true } else st
    { st with paragraph := { st.paragraph with tag_count := st.paragraph.tag_count + 1 } }

/-- Embedding of `SaxPragraphMaker.endElementNS`. -/
def endElementNS (st : PMState) (name : Str) : PMState :=
  let st := { st with dom := st.dom.dropLast }
  let st := if PARAGRAPH_TAGS.contains name then start_new_pragraph st else st
  if name = aTag then { st with link := false } else st

/-- Embedding of `SaxPragraphMaker.characters` (core.py lines 293-302).
Whitespace-only content returns early, leaving the whole state (the br
flag included) untouched. -/
def characters (st : PMState) (content : Str) : PMState :=
  if stripChars content = [] then st
  else
    let text := normalize_whitespace content
    let words := splitWs (stripChars text)
    { st with
      paragraph := { st.paragraph with
        text_nodes := st.paragraph.text_nodes ++ [text],
        word_count := st.paragraph.word_count + words.length,
        linked_char_count := st.paragraph.linked_char_count +
          (if st.link then text.length else 0) },
      br := false }

/-- SAX events fed to the paragraph maker by `lxml.sax.saxify` (an
external collaborator: it performs an in-order traversal of the cleaned
DOM emitting start, end and text events). -/
inductive SaxEvent where
  | startTag (name : Str)
  | endTag (name : Str)
  | chars (content : Str)
deriving Repr

def saxStep (st : PMState) : SaxEvent → PMState
  | .startTag n => startElementNS st n
  | .endTag n => endElementNS st n
  | .chars c => characters st c

def initState : PMState :=
  { dom := [], paragraphs := [], paragraph := freshParagraph [],
    link := false, br := false }

/-- Embedding of `SaxPragraphMaker.endDocument`. -/
def endDocument (st : PMState) : PMState := start_new_pragraph st

/-- Embedding of `make_paragraphs`: run the handler over the event stream
and close the final paragraph. -/
def make_paragraphs (events : List SaxEvent) : List Paragraph :=
  (endDocument (events.foldl saxStep initState)).paragraphs

/-! Classifier (core.py lines 310-354). -/

def MAX_LINK_DENSITY_DEFAULT : ℚ := mkRat 1 5
def LENGTH_LOW_DEFAULT : Nat := 70
def LENGTH_HIGH_DEFAULT : Nat := 200
def STOPWORDS_LOW_DEFAULT : ℚ := mkRat 3 10
def STOPWORDS_HIGH_DEFAULT : ℚ := mkRat 8 25
def NO_HEADINGS_DEFAULT : Bool := false
def MAX_HEADING_DISTANCE_DEFAULT : Nat := 200

/-- The tunables threaded through `classify_paragraphs`. -/
structure Options where
  length_low : Nat := LENGTH_LOW_DEFAULT
  length_high : Nat := LENGTH_HIGH_DEFAULT
  stopwords_low : ℚ := STOPWORDS_LOW_DEFAULT
  stopwords_high : ℚ := STOPWORDS_HIGH_DEFAULT
  max_link_density : ℚ := MAX_LINK_DENSITY_DEFAULT
  no_headings : Bool := NO_HEADINGS_DEFAULT

/-- Does `t` start with the letter h followed by an ASCII digit
(the regex fragment `h\d`)? -/
def startsHDigit : Str → Bool
  | 'h' :: d :: _ => d.isDigit
  | _ => false

/-- Does some suffix of `s` satisfy `p`?  Used to embed an unanchored
`re.search`. -/
def anySuffix (p : Str → Bool) : Str → Bool
  | [] => p []
  | c :: cs => p (c :: cs) || anySuffix p cs

/-- Embedding of `re.search('(^h\d|\.h\d)', dom_path)`. -/
def searchHeadingRe (s : Str) : Bool :=
  startsHDigit s ||
    anySuffix (fun t =>
      match t with
      | '.' :: rest => startsHDigit rest
      | _ => false) s

def selectTag : Str := "select".toList

/-- Embedding of `re.search('(^select|\.select)', dom_path)`. -/
def searchSelectRe (s : Str) : Bool :=
  selectTag.isPrefixOf s ||
    anySuffix (fun t =>
      match t with
      | '.' :: rest => selectTag.isPrefixOf rest
      | _ => false) s

/-- Substring test, Python `pat in s`. -/
def containsSub (pat s : Str) : Bool := anySuffix (fun t => pat.isPrefixOf t) s

def copyEnt : Str := "&copy".toList

/-- Stop-word count of a paragraph: the tokens of its text found in the
stop-list (exact, case-sensitive membership). -/
def stopword_countOf (stoplist : List Str) (p : Paragraph) : Nat :=
  (splitWs p.text).countP (fun w => stoplist.contains w)

/-- Stop-word density, `stopword_count / word_count`, forced to 0 when
`word_count` is 0 (core.py lines 322-326). -/
def stopword_densityOf (stoplist : List Str) (p : Paragraph) : ℚ :=
  if p.word_count = 0 then 0 else mkRat (stopword_countOf stoplist p) p.word_count

/-- Link density, `linked_char_count / len(text)`, forced to 0 when
`word_count` is 0 (core.py lines 322-327). -/
def link_densityOf (p : Paragraph) : ℚ :=
  if p.word_count = 0 then 0 else mkRat p.linked_char_count p.text.length

/-- Heading flag (core.py line 332). -/
def headingOf (o : Options) (p : Paragraph) : Bool :=
  !o.no_headings && searchHeadingRe p.dom_path

/-- The if/elif chain assigning `cfclass` (core.py lines 333-354). -/
def cfclassOf (stoplist : List Str) (o : Options) (p : Paragraph) : Label :=
  if o.max_link_density < link_densityOf p then .bad
  else if p.text.contains '\xa9' || containsSub copyEnt p.text then .bad
  else if searchSelectRe p.dom_path then .bad
  else if p.text.length < o.length_low then
    (if 0 < p.linked_char_count then .bad else .short)
  else if o.stopwords_high ≤ stopword_densityOf stoplist p then
    (if o.length_high < p.text.length then .good else .neargood)
  else if o.stopwords_low ≤ stopword_densityOf stoplist p then .neargood
  else .bad

/-- Embedding of the body of the `classify_paragraphs` loop for one
paragraph: compute the derived features and assign `cfclass`. -/
def classify_one (stoplist : List Str) (o : Options) (p : Paragraph) : Paragraph :=
  { p with stopword_count := stopword_countOf stoplist p,
           stopword_density := stopword_densityOf stoplist p,
           link_density := link_densityOf p,
           heading := headingOf o p,
           cfclass := cfclassOf stoplist o p }

/-- Embedding of `classify_paragraphs` (the loop mutates each dict in
place; functionally, a map). -/
def classify_paragraphs (stoplist : List Str) (o : Options)
    (ps : List Paragraph) : List Paragraph :=
  ps.map (classify_one stoplist o)

/-! Context-sensitive reviser (core.py lines 356-448). -/

/-- The walking loop of `_get_neighbour`, expressed on the list of classes
in walking order: return the first class that is good or bad, or neargood
when `ignore_neargood` is false; return bad when the walk hits the
sequence boundary. -/
def scanNeighbour (ignore_neargood : Bool) : List Label → Label
  | [] => .bad
  | c :: rest =>
    if c = .good || c = .bad then c
    else if c = .neargood && !ignore_neargood then c
    else scanNeighbour ignore_neargood rest

def classesOf (ps : List Paragraph) : List Label := ps.map (fun p => p.«class»)

/-- Embedding of `get_prev_neighbour`: walk indices i-1, i-2, ..., 0,
which is the reverse of the first i classes. -/
def get_prev_neighbour (i : Nat) (ps : List Paragraph) (ig : Bool) : Label :=
  scanNeighbour ig ((classesOf ps).take i).reverse

/-- Embedding of `get_next_neighbour`: walk indices i+1, ..., len-1. -/
def get_next_neighbour (i : Nat) (ps : List Paragraph) (ig : Bool) : Label :=
  scanNeighbour ig ((classesOf ps).drop (i + 1))

/-- The forward while-loop shared by the two heading passes: scan the
given suffix, stopping when the accumulated distance exceeds the budget,
and report whether a good paragraph was reached first. -/
def headingScan (maxd : Nat) : Nat → List Paragraph → Bool
  | _, [] => false
  | dist, q :: rest =>
    if maxd < dist then false
    else if q.«class» = .good then true
    else headingScan maxd (dist + q.text.length) rest

/-- One iteration of the first heading pass (core.py lines 392-402) at
index `i` of the current list. -/
def pass1Step (maxd : Nat) (ps : List Paragraph) (i : Nat) : List Paragraph :=
  match ps[i]? with
  | none => ps
  | some p =>
    if p.heading && p.«class» = .short then
      if headingScan maxd 0 (ps.drop (i + 1)) then
        ps.set i { p with «class» := .neargood }
      else ps
    else ps

/-- The first heading pass: in-place, in index order. -/
def pass1 (maxd : Nat) (ps : List Paragraph) : List Paragraph :=
  (List.range ps.length).foldl (pass1Step maxd) ps

/-- The short-resolution decision for index `i`, computed against the
pre-pass state (core.py lines 405-421). -/
def pass2Decide (ps : List Paragraph) (i : Nat) : Label :=
  let prev := get_prev_neighbour i ps true
  let next := get_next_neighbour i ps true
  if prev = .good && next = .good then .good
  else if prev = .bad && next = .bad then .bad
  else if (prev = .bad && get_prev_neighbour i ps false = .neargood)
       || (next = .bad && get_next_neighbour i ps false = .neargood) then .good
  else .bad

/-- Recursion for the short pass: all decisions read the original list
`ps` (the Python code stages them in `new_classes` and applies them after
the loop). -/
def pass2From (ps : List Paragraph) : Nat → List Paragraph → List Paragraph
  | _, [] => []
  | i, p :: rest =>
    (if p.«class» = .short then { p with «class» := pass2Decide ps i } else p)
      :: pass2From ps (i + 1) rest

/-- The short-resolution pass (staged application). -/
def pass2 (ps : List Paragraph) : List Paragraph := pass2From ps 0 ps

/-- One iteration of the neargood pass (core.py lines 427-435) at index
`i`: applied in place, so later iterations see earlier updates. -/
def pass3Step (ps : List Paragraph) (i : Nat) : List Paragraph :=
  match ps[i]? with
  | none => ps
  | some p =>
    if p.«class» = .neargood then
      let prev := get_prev_neighbour i ps true
      let next := get_next_neighbour i ps true
      ps.set i { p with «class» := if prev = .bad && next = .bad then .bad else .good }
    else ps

/-- The neargood pass: in-place, in index order. -/
def pass3 (ps : List Paragraph) : List Paragraph :=
  (List.range ps.length).foldl pass3Step ps

/-- One iteration of the second heading pass (core.py lines 438-448). -/
def pass4Step (maxd : Nat) (ps : List Paragraph) (i : Nat) : List Paragraph :=
  match ps[i]? with
  | none => ps
  | some p =>
    if p.heading && p.«class» = .bad && p.cfclass ≠ .bad then
      if headingScan maxd 0 (ps.drop (i + 1)) then
        ps.set i { p with «class» := .good }
      else ps
    else ps

/-- The second heading pass: in-place, in index order. -/
def pass4 (maxd : Nat) (ps : List Paragraph) : List Paragraph :=
  (List.range ps.length).foldl (pass4Step maxd) ps

/-- The initial copy loop of `revise_paragraph_classification`. -/
def copyClasses (ps : List Paragraph) : List Paragraph :=
  ps.map (fun p => { p with «class» := p.cfclass })

/-- Embedding of `revise_paragraph_classification` (core.py lines
382-448): copy classes, then the four passes in order. -/
def revise_paragraph_classification (maxd : Nat) (ps : List Paragraph) :
    List Paragraph :=
  pass4 maxd (pass3 (pass2 (pass1 maxd (copyClasses ps))))

/-- Embedding of the `justext` driver from segmentation onward: the
upstream decoding, HTML parsing and DOM cleaning are external
collaborators whose output is the SAX event stream consumed here. -/
def justext (events : List SaxEvent) (stoplist : List Str)
    (o : Options) (maxd : Nat) : List Paragraph :=
  revise_paragraph_classification maxd
    (classify_paragraphs stoplist o (make_paragraphs events))

end Justext

namespace Justext

/-! Input decoding (core.py lines 67-97).  The byte-level codecs and the
charset-meta regex are external to the classifier core; they are
modelled by oracles: `known` is codec lookup (false = `LookupError`),
`decodeStrict` is `bytes.decode(name)` (none = `UnicodeDecodeError`),
`decodeReplace` is `bytes.decode(name, 'replace')`, which always
succeeds on a known codec, and `metaMatch` is the result of the
`CHARSET_META_TAG_PATTERN` search. -/

abbrev Bytes := List Nat

/-- Codec oracle for the decoding model. -/
structure Codecs where
  known : Str → Bool
  decodeStrict : Str → Bytes → Option Str
  decodeReplace : Str → Bytes → Str

/-- Outcome of `decode_html`: a decoded string, the raised
`JustextError` (the DecodeFailure of the spec), or a propagated
`LookupError`. -/
inductive DecodeOutcome where
  | ok (s : Str)
  | justextError
  | lookupError
deriving DecidableEq, Repr

def utf8Name : Str := "utf8".toList

/-- Embedding of `decode_html` for byte-string input: forced encoding if
given; otherwise the meta-declared encoding when its codec is known;
otherwise strict utf-8; otherwise strict `default_encoding`; otherwise
the `JustextError`.  A `LookupError` on the forced or default encoding
propagates uncaught, as in the source, where only `UnicodeDecodeError`
(and, on the meta path, `LookupError`) is caught. -/
def decode_html (C : Codecs) (html_string : Bytes) (encoding : Option Str)
    (default_encoding : Str) (metaMatch : Option Str) : DecodeOutcome :=
  match encoding with
  | some enc =>
    if C.known enc then .ok (C.decodeReplace enc html_string) else .lookupError
  | none =>
    let tryMeta : Option Str :=
      match metaMatch with
      | some declared =>
        if C.known declared then some (C.decodeReplace declared html_string)
        else none
      | none => none
    match tryMeta with
    | some s => .ok s
    | none =>
      match C.decodeStrict utf8Name html_string with
      | some s => .ok s
      | none =>
        if C.known default_encoding then
          match C.decodeStrict default_encoding html_string with
          | some s => .ok s
          | none => .justextError
        else .lookupError

/-! Concrete event streams.  They model the output of the external
parser/cleaner stack (`lxml.html.fromstring`, `add_kw_tags`,
`lxml.sax.saxify`) on small documents: text nodes are wrapped in `kw`
elements, blank text nodes are discarded by `add_kw_tags`, and the
traversal emits balanced start/end events. -/

/-- Event stream for `<html><body><p>Short.</p></body></html>`. -/
def eventsShortDoc : List SaxEvent :=
  [.startTag "html".toList, .startTag "body".toList, .startTag "p".toList,
   .startTag "kw".toList, .chars "Short.".toList, .endTag "kw".toList,
   .endTag "p".toList, .endTag "body".toList, .endTag "html".toList]

/-- Event stream for `<html><body><p><a href="x"> a </a></p></body></html>`:
the text node of the link keeps its surrounding blanks. -/
def eventsPaddedLink : List SaxEvent :=
  [.startTag "html".toList, .startTag "body".toList, .startTag "p".toList,
   .startTag "a".toList, .startTag "kw".toList, .chars " a ".toList,
   .endTag "kw".toList, .endTag "a".toList, .endTag "p".toList,
   .endTag "body".toList, .endTag "html".toList]

/-- Event stream for `<html><body><p>foo<b>bar</b></p></body></html>`:
two adjacent text nodes with no whitespace between them. -/
def eventsAdjacentText : List SaxEvent :=
  [.startTag "html".toList, .startTag "body".toList, .startTag "p".toList,
   .startTag "kw".toList, .chars "foo".toList, .endTag "kw".toList,
   .startTag "b".toList, .startTag "kw".toList, .chars "bar".toList,
   .endTag "kw".toList, .endTag "b".toList, .endTag "p".toList,
   .endTag "body".toList, .endTag "html".toList]

/-- Event stream with a whitespace-only text node between two `br`
start-events, as a traversal of `<div>A<br> <br>B</div>` would emit were
the blank text kept. -/
def eventsBrSpaceBr : List SaxEvent :=
  [.startTag "html".toList, .startTag "body".toList, .startTag "div".toList,
   .startTag "kw".toList, .chars "A".toList, .endTag "kw".toList,
   .startTag "br".toList, .endTag "br".toList, .chars " ".toList,
   .startTag "br".toList, .endTag "br".toList,
   .startTag "kw".toList, .chars "B".toList, .endTag "kw".toList,
   .endTag "div".toList, .endTag "body".toList, .endTag "html".toList]

end Justext

namespace Justext

/-! Theorems.  Claims C1-C10 of the specification are settled below
against the embedding above. -/

/-- C5 (amended): a text event whose content is not whitespace-only
clears the `last_was_br` flag, while a whitespace-only text event
returns early and leaves the whole segmenter state, the flag included,
unchanged. -/
theorem characters_br_flag (st : PMState) (content : Str) :
    (stripChars content = [] → characters st content = st) ∧
    (stripChars content ≠ [] → (characters st content).br = false) := by
  constructor
  · intro h
    simp [characters, h]
  · intro h
    simp [characters, h]

/-- Witness for `characters_br_flag` at concrete inputs. -/
theorem characters_br_flag_witness :
    (characters initState "x".toList).br = false ∧
    characters { initState with br := true } " ".toList
      = { initState with br := true } :=
  ⟨(characters_br_flag initState "x".toList).2 (by decide),
   (characters_br_flag { initState with br := true } " ".toList).1 (by decide)⟩

/-- Counterexample to C5 as stated: a whitespace-only text event does
not clear `last_was_br` (the method returns before `self.br = False`),
so in a stream `A <br> (blank text) <br> B` the second `br` still
triggers the double-break boundary and two paragraphs come out. -/
theorem characters_br_flag_counterexample :
    (characters { initState with br := true } " ".toList).br = true ∧
    (make_paragraphs eventsBrSpaceBr).map (fun p => p.text)
      = ["A".toList, "B".toList] := by
  constructor
  · rfl
  · decide

/-- C6: on the event stream of `<html><body><p>Short.</p></body></html>`
with an empty stop-list and default options the pipeline returns exactly
one paragraph with text `Short.`, context-free class `short` and final
class `bad`; both neighbour searches on it hit the sequence end, and a
neighbour walk that reaches the boundary yields `bad`. -/
theorem justext_short_document :
    (justext eventsShortDoc [] {} MAX_HEADING_DISTANCE_DEFAULT).map
        (fun p => (p.text, p.cfclass, p.«class»))
      = [("Short.".toList, Label.short, Label.bad)] ∧
    get_prev_neighbour 0
        (justext eventsShortDoc [] {} MAX_HEADING_DISTANCE_DEFAULT) true
      = Label.bad ∧
    get_next_neighbour 0
        (justext eventsShortDoc [] {} MAX_HEADING_DISTANCE_DEFAULT) true
      = Label.bad ∧
    (∀ ig : Bool, scanNeighbour ig [] = Label.bad) :=
  ⟨by decide, by decide, by decide, fun _ => rfl⟩

/-- C7: a classified paragraph whose link density does not exceed
`max_link_density` but whose text contains U+00A9 or the literal
substring `&copy` receives context-free class `bad`, whatever its length
and stop-word density. -/
theorem cfclass_copyright_bad (stoplist : List Str) (o : Options) (p : Paragraph)
    (hld : (classify_one stoplist o p).link_density ≤ o.max_link_density)
    (hc : (p.text.contains '\xa9' || containsSub copyEnt p.text) = true) :
    (classify_one stoplist o p).cfclass = .bad := by
  have hld' : link_densityOf p ≤ o.max_link_density := hld
  show cfclassOf stoplist o p = .bad
  unfold cfclassOf
  rw [if_neg (not_lt.mpr hld'), if_pos hc]

/-- Witness for `cfclass_copyright_bad` on a long paragraph containing a
copyright sign. -/
theorem cfclass_copyright_bad_witness :
    (classify_one [] {}
      { text := "© 2024 Acme Corp. All rights reserved on this long footer line of the page".toList,
        word_count := 14 }).cfclass = .bad :=
  cfclass_copyright_bad [] {} _ (by decide) (by decide)

/-- C8: with byte input, no encoding option and no usable meta charset
declaration, decoding tries strict utf-8 first, then the (known)
default encoding; either success returns the decoded string, and if both
fail the function raises the `JustextError` and yields no result. -/
theorem decode_html_fallback (C : Codecs) (html : Bytes) (d : Str)
    (hk : C.known d = true) :
    (∀ s, C.decodeStrict utf8Name html = some s →
        decode_html C html none d none = .ok s) ∧
    (C.decodeStrict utf8Name html = none →
      ∀ s, C.decodeStrict d html = some s →
        decode_html C html none d none = .ok s) ∧
    (C.decodeStrict utf8Name html = none → C.decodeStrict d html = none →
        decode_html C html none d none = .justextError) := by
  refine ⟨fun s hs => ?_, fun h8 s hs => ?_, fun h8 hd => ?_⟩ <;>
    simp [decode_html, hk, *]

/-- Witness for `decode_html_fallback` with a codec oracle on which both
strict decodes fail. -/
theorem decode_html_fallback_witness :
    decode_html ⟨fun _ => true, fun _ _ => none, fun _ _ => []⟩ [255] none
      "utf-8".toList none = .justextError :=
  (decode_html_fallback ⟨fun _ => true, fun _ _ => none, fun _ _ => []⟩
    [255] "utf-8".toList rfl).2.2 rfl rfl

/-- Counterexample to C2 as stated: on the event stream of
`<p><a> a </a></p>` the single classified paragraph has link density 3,
because `linked_char_count` counts the padded text node " a " (3
characters) while the final stripped text is "a" (1 character). -/
theorem link_density_counterexample :
    ¬ (∀ p ∈ classify_paragraphs [] {} (make_paragraphs eventsPaddedLink),
        0 ≤ p.link_density ∧ p.link_density ≤ 1) := by
  decide

/-- Counterexample to C3 as stated: on the event stream of
`<p>foo<b>bar</b></p>` the paragraph text is "foobar" (one token) while
the segmenter counted one word per text node, so `word_count = 2`. -/
theorem word_count_counterexample :
    ¬ (∀ p ∈ make_paragraphs eventsAdjacentText,
        (splitWs p.text).length = p.word_count) := by
  decide

end Justext

namespace Justext

/-! Token-count lemmas for the word-count bound. -/

lemma isSpace_space : isSpace ' ' = true := rfl

lemma splitAux_length_ne_nil (s : Str) :
    ∀ a b : Str, a ≠ [] → b ≠ [] →
      (splitAux a s).length = (splitAux b s).length := by
  induction s with
  | nil => intro a b ha hb; simp [splitAux, ha, hb]
  | cons c cs ih =>
    intro a b ha hb
    by_cases hc : isSpace c
    · simp [splitAux, hc, ha, hb]
    · simp only [splitAux, hc, if_neg]
      simp only [Bool.false_eq_true, if_false]
      exact ih (c :: a) (c :: b) (by simp) (by simp)

lemma splitAux_length_le (s : Str) :
    ∀ a : Str,
      (splitAux a s).length ≤ (if a = [] then 0 else 1) + (splitAux [] s).length := by
  induction s with
  | nil =>
    intro a
    by_cases ha : a = [] <;> simp [splitAux, ha]
  | cons c cs ih =>
    intro a
    by_cases hc : isSpace c
    · by_cases ha : a = [] <;> simp [splitAux, hc, ha] <;> omega
    · by_cases ha : a = []
      · subst ha; simp [splitAux, hc]
      · have h2 := splitAux_length_ne_nil cs (c :: a) [c] (by simp) (by simp)
        simp only [splitAux, hc, Bool.false_eq_true, if_false, if_neg ha]
        omega

lemma splitAux_append_length (b : Str) :
    ∀ (s a : Str),
      (splitAux a (s ++ b)).length ≤ (splitAux a s).length + (splitAux [] b).length := by
  intro s
  induction s with
  | nil =>
    intro a
    have h := splitAux_length_le b a
    by_cases ha : a = [] <;> simp [splitAux, ha] at h ⊢ <;> omega
  | cons c cs ih =>
    intro a
    by_cases hc : isSpace c
    · have h := ih []
      by_cases ha : a = [] <;> simp [splitAux, hc, ha] <;> omega
    · simpa [splitAux, hc] using ih (c :: a)

lemma splitWs_append_length (x y : Str) :
    (splitWs (x ++ y)).length ≤ (splitWs x).length + (splitWs y).length :=
  splitAux_append_length y x []

lemma splitAux_normalizeAux (s : Str) :
    ∀ (ps : Bool) (a : Str), (ps = true → a = []) →
      splitAux a (normalizeAux ps s) = splitAux a s := by
  induction s with
  | nil => intro ps a _; rfl
  | cons c cs ih =>
    intro ps a h
    by_cases hc : isSpace c
    · cases ps
      · by_cases ha : a = [] <;>
          simp [normalizeAux, splitAux, hc, ha, isSpace_space,
            ih true [] (fun _ => rfl)]
      · have ha := h rfl
        subst ha
        simp [normalizeAux, splitAux, hc, ih true [] (fun _ => rfl)]
    · cases ps <;>
        simp [normalizeAux, splitAux, hc, ih false (c :: a) (by simp)]

lemma splitWs_normalize (s : Str) :
    splitWs (normalize_whitespace s) = splitWs s :=
  splitAux_normalizeAux s false [] (by simp)

lemma splitAux_dropWhile_space (s : Str) :
    splitAux [] (s.dropWhile isSpace) = splitAux [] s := by
  induction s with
  | nil => rfl
  | cons c cs ih =>
    by_cases hc : isSpace c
    · simpa [List.dropWhile_cons, hc, splitAux] using ih
    · simp [List.dropWhile_cons, hc]

lemma splitAux_all_spaces :
    ∀ (ws : Str), (∀ c ∈ ws, isSpace c = true) →
      ∀ a, splitAux a ws = splitAux a [] := by
  intro ws
  induction ws with
  | nil => intro _ _; rfl
  | cons c cs ih =>
    intro h a
    have hc : isSpace c = true := h c (by simp)
    have ih' := ih (fun d hd => h d (by simp [hd]))
    by_cases ha : a = [] <;> simp [splitAux, hc, ha, ih']

lemma splitAux_append_spaces (ws : Str) (hws : ∀ c ∈ ws, isSpace c = true) :
    ∀ (s a : Str), splitAux a (s ++ ws) = splitAux a s := by
  intro s
  induction s with
  | nil =>
    intro a
    simpa using splitAux_all_spaces ws hws a
  | cons c cs ih =>
    intro a
    by_cases hc : isSpace c <;> by_cases ha : a = [] <;>
      simp [splitAux, hc, ha, ih]

lemma splitWs_strip (s : Str) : splitWs (stripChars s) = splitWs s := by
  unfold stripChars splitWs
  have hdecomp : s.dropWhile isSpace =
      ((s.dropWhile isSpace).reverse.dropWhile isSpace).reverse ++
        ((s.dropWhile isSpace).reverse.takeWhile isSpace).reverse := by
    conv_lhs => rw [← List.reverse_reverse (s.dropWhile isSpace),
      ← List.takeWhile_append_dropWhile (p := isSpace)
        (l := (s.dropWhile isSpace).reverse)]
    rw [List.reverse_append]
  have hspaces :
      ∀ c ∈ ((s.dropWhile isSpace).reverse.takeWhile isSpace).reverse,
        isSpace c = true := by
    intro c hcmem
    rw [List.mem_reverse] at hcmem
    exact List.mem_takeWhile_imp hcmem
  calc splitAux [] ((s.dropWhile isSpace).reverse.dropWhile isSpace).reverse
      = splitAux []
          (((s.dropWhile isSpace).reverse.dropWhile isSpace).reverse ++
            ((s.dropWhile isSpace).reverse.takeWhile isSpace).reverse) :=
        (splitAux_append_spaces _ hspaces _ []).symm
    _ = splitAux [] (s.dropWhile isSpace) := by rw [← hdecomp]
    _ = splitAux [] s := splitAux_dropWhile_space s

/-! Segmenter invariant: the token count of the text assembled so far
never exceeds the accumulated `word_count`. -/

def tokenBound (p : Paragraph) : Prop :=
  (splitWs p.text).length ≤ p.word_count

def openBound (p : Paragraph) : Prop :=
  (splitWs p.text_nodes.flatten).length ≤ p.word_count

def segInv (st : PMState) : Prop :=
  (∀ p ∈ st.paragraphs, tokenBound p) ∧ openBound st.paragraph

lemma openBound_fresh (dom : List Str) : openBound (freshParagraph dom) := by
  simp [openBound, freshParagraph, splitWs, splitAux]

lemma segInv_start_new (st : PMState) (h : segInv st) :
    segInv (start_new_pragraph st) := by
  unfold start_new_pragraph
  by_cases hn : st.paragraph.text_nodes ≠ []
  · simp only [if_pos hn]
    refine ⟨?_, openBound_fresh _⟩
    intro p hp
    rcases List.mem_append.mp hp with h1 | h2
    · exact h.1 p h1
    · rcases List.mem_singleton.mp h2 with rfl
      show (splitWs (normalize_whitespace
          (stripChars st.paragraph.text_nodes.flatten))).length ≤
        st.paragraph.word_count
      rw [splitWs_normalize, splitWs_strip]
      exact h.2
  · simp only [if_neg hn]
    exact ⟨h.1, openBound_fresh _⟩

lemma segInv_characters (st : PMState) (c : Str) (h : segInv st) :
    segInv (characters st c) := by
  unfold characters
  by_cases hb : stripChars c = []
  · simpa [hb] using h
  · simp only [if_neg hb]
    refine ⟨h.1, ?_⟩
    show (splitWs (List.flatten
        (st.paragraph.text_nodes ++ [normalize_whitespace c]))).length ≤
      st.paragraph.word_count +
        (splitWs (stripChars (normalize_whitespace c))).length
    rw [List.flatten_append, List.flatten_cons, List.flatten_nil,
      List.append_nil, splitWs_strip, splitWs_normalize]
    calc (splitWs (st.paragraph.text_nodes.flatten ++ normalize_whitespace c)).length
        ≤ (splitWs st.paragraph.text_nodes.flatten).length +
            (splitWs (normalize_whitespace c)).length :=
          splitWs_append_length _ _
      _ = (splitWs st.paragraph.text_nodes.flatten).length + (splitWs c).length := by
          rw [splitWs_normalize]
      _ ≤ st.paragraph.word_count + (splitWs c).length :=
          Nat.add_le_add_right h.2 _

lemma segInv_startElementNS (st : PMState) (n : Str) (h : segInv st) :
    segInv (startElementNS st n) := by
  simp only [startElementNS]
  split
  · split
    · exact segInv_start_new _ ⟨h.1, h.2⟩
    · exact segInv_start_new _ ⟨h.1, h.2⟩
  · split <;> split <;> exact ⟨h.1, h.2⟩

lemma segInv_endElementNS (st : PMState) (n : Str) (h : segInv st) :
    segInv (endElementNS st n) := by
  simp only [endElementNS]
  split <;> split
  · have g := segInv_start_new { st with dom := st.dom.dropLast } ⟨h.1, h.2⟩
    exact ⟨g.1, g.2⟩
  · exact ⟨h.1, h.2⟩
  · exact segInv_start_new _ ⟨h.1, h.2⟩
  · exact ⟨h.1, h.2⟩

lemma segInv_saxStep (st : PMState) (e : SaxEvent) (h : segInv st) :
    segInv (saxStep st e) := by
  cases e with
  | startTag n => exact segInv_startElementNS st n h
  | endTag n => exact segInv_endElementNS st n h
  | chars c => exact segInv_characters st c h

lemma segInv_foldl (events : List SaxEvent) :
    ∀ st, segInv st → segInv (events.foldl saxStep st) := by
  induction events with
  | nil => intro st h; exact h
  | cons e es ih => intro st h; exact ih _ (segInv_saxStep st e h)

lemma segInv_init : segInv initState :=
  ⟨by simp [initState], openBound_fresh []⟩

/-- C3 (amended): for every event stream, every emitted paragraph
satisfies `len(text.split()) ≤ word_count`.  Equality can fail (see the
counterexample) because adjacent text nodes are concatenated without a
separator while their token counts were added. -/
theorem word_count_upper_bound (events : List SaxEvent) :
    ∀ p ∈ make_paragraphs events, (splitWs p.text).length ≤ p.word_count := by
  intro p hp
  exact (segInv_start_new _
    (segInv_foldl events initState segInv_init)).1 p hp

/-- The single paragraph produced from `eventsShortDoc`. -/
def shortParagraph : Paragraph :=
  { dom_path := "html.body.p".toList,
    text_nodes := ["Short.".toList],
    text := "Short.".toList,
    word_count := 1,
    linked_char_count := 0,
    tag_count := 1 }

/-- Witness for `word_count_upper_bound` on a concrete stream. -/
theorem word_count_upper_bound_witness :
    (splitWs shortParagraph.text).length ≤ shortParagraph.word_count :=
  word_count_upper_bound eventsShortDoc shortParagraph (by decide)

/-- C2 (amended): every classified paragraph of the pipeline has
nonnegative link density, and stop-word density in `[0, 1]`; both
densities are 0 when `word_count` is 0.  Link density is not bounded by
1 (see the counterexample): `linked_char_count` is measured on the raw
text nodes while the denominator is the length of the stripped text. -/
theorem density_bounds (events : List SaxEvent) (stoplist : List Str) (o : Options) :
    ∀ q ∈ classify_paragraphs stoplist o (make_paragraphs events),
      0 ≤ q.link_density ∧ 0 ≤ q.stopword_density ∧ q.stopword_density ≤ 1 ∧
      (q.word_count = 0 → q.link_density = 0 ∧ q.stopword_density = 0) := by
  intro q hq
  rcases List.mem_map.mp hq with ⟨p, hp, rfl⟩
  have hwc := word_count_upper_bound events p hp
  refine ⟨?_, ?_, ?_, ?_⟩
  · show 0 ≤ link_densityOf p
    unfold link_densityOf
    split
    · exact le_refl 0
    · rw [Rat.mkRat_eq_div]
      positivity
  · show 0 ≤ stopword_densityOf stoplist p
    unfold stopword_densityOf
    split
    · exact le_refl 0
    · rw [Rat.mkRat_eq_div]
      positivity
  · show stopword_densityOf stoplist p ≤ 1
    unfold stopword_densityOf
    split
    · exact zero_le_one
    · rename_i hwc0
      have hpos : (0 : ℚ) < (p.word_count : ℚ) := by
        exact_mod_cast Nat.pos_of_ne_zero hwc0
      rw [Rat.mkRat_eq_div, div_le_one hpos]
      have hsc : stopword_countOf stoplist p ≤ p.word_count :=
        le_trans (List.countP_le_length _) hwc
      exact_mod_cast hsc
  · intro h0
    have h0' : p.word_count = 0 := h0
    constructor
    · show link_densityOf p = 0
      unfold link_densityOf
      rw [if_pos h0']
    · show stopword_densityOf stoplist p = 0
      unfold stopword_densityOf
      rw [if_pos h0']

/-- Witness for `density_bounds` on a concrete stream. -/
theorem density_bounds_witness :
    0 ≤ (classify_one [] {} shortParagraph).link_density ∧
    0 ≤ (classify_one [] {} shortParagraph).stopword_density ∧
    (classify_one [] {} shortParagraph).stopword_density ≤ 1 ∧
    ((classify_one [] {} shortParagraph).word_count = 0 →
      (classify_one [] {} shortParagraph).link_density = 0 ∧
      (classify_one [] {} shortParagraph).stopword_density = 0) :=
  density_bounds eventsShortDoc [] {} (classify_one [] {} shortParagraph)
    (by decide)

end Justext

namespace Justext

/-! Structure of the reviser passes: case analyses of the single steps
and generic invariant preservation along the index folds. -/

lemma pass2Decide_good_or_bad (ps : List Paragraph) (i : Nat) :
    pass2Decide ps i = .good ∨ pass2Decide ps i = .bad := by
  simp only [pass2Decide]
  split
  · exact Or.inl rfl
  · split
    · exact Or.inr rfl
    · split
      · exact Or.inl rfl
      · exact Or.inr rfl

lemma pass1Step_cases (maxd : Nat) (qs : List Paragraph) (i : Nat) :
    pass1Step maxd qs i = qs ∨
    ∃ p, qs[i]? = some p ∧ p.heading = true ∧ p.«class» = .short ∧
      pass1Step maxd qs i = qs.set i { p with «class» := .neargood } := by
  unfold pass1Step
  cases hpi : qs[i]? with
  | none => exact Or.inl rfl
  | some p =>
    by_cases hcond : (p.heading && p.«class» = .short) = true
    · rcases Bool.and_eq_true_iff.mp hcond with ⟨hh, hs⟩
      by_cases hscan : headingScan maxd 0 (qs.drop (i + 1)) = true
      · exact Or.inr ⟨p, rfl, hh, by simpa using hs, by simp [hcond, hscan]⟩
      · left; simp [hcond, hscan]
    · left; simp [hcond]

lemma pass3Step_cases (qs : List Paragraph) (i : Nat) :
    (pass3Step qs i = qs ∧
      ∀ p, qs[i]? = some p → p.«class» ≠ .neargood) ∨
    ∃ p c, qs[i]? = some p ∧ p.«class» = .neargood ∧
      (c = Label.good ∨ c = Label.bad) ∧
      pass3Step qs i = qs.set i { p with «class» := c } := by
  unfold pass3Step
  cases hpi : qs[i]? with
  | none => exact Or.inl ⟨rfl, by simp⟩
  | some p =>
    by_cases hng : p.«class» = .neargood
    · refine Or.inr ⟨p,
        if get_prev_neighbour i qs true = Label.bad ∧
            get_next_neighbour i qs true = Label.bad then Label.bad
        else Label.good, rfl, hng, ?_, ?_⟩
      · split
        · exact Or.inr rfl
        · exact Or.inl rfl
      · simp [hng]
    · exact Or.inl ⟨by simp [hng], by simp [hng]⟩

lemma pass4Step_cases (maxd : Nat) (qs : List Paragraph) (i : Nat) :
    pass4Step maxd qs i = qs ∨
    ∃ p, qs[i]? = some p ∧ p.heading = true ∧ p.«class» = .bad ∧
      p.cfclass ≠ .bad ∧
      pass4Step maxd qs i = qs.set i { p with «class» := .good } := by
  unfold pass4Step
  cases hpi : qs[i]? with
  | none => exact Or.inl rfl
  | some p =>
    by_cases hcond : (p.heading && p.«class» = .bad && !(p.cfclass = .bad)) = true
    · have hh : p.heading = true := by
        have := hcond; simp [Bool.and_eq_true_iff] at this; exact this.1.1
      have hb : p.«class» = .bad := by
        have := hcond; simp [Bool.and_eq_true_iff] at this; exact this.1.2
      have hcf : p.cfclass ≠ .bad := by
        have := hcond; simp [Bool.and_eq_true_iff] at this; exact this.2
      by_cases hscan : headingScan maxd 0 (qs.drop (i + 1)) = true
      · exact Or.inr ⟨p, rfl, hh, hb, hcf, by simp [hcond, hscan]⟩
      · left; simp [hcond, hscan]
    · left; simp [hcond]

/-- Generic preservation of a per-element property along an index fold. -/
lemma foldl_mem_inv (f : List Paragraph → Nat → List Paragraph)
    (P : Paragraph → Prop)
    (hstep : ∀ qs i, (∀ p ∈ qs, P p) → ∀ p ∈ f qs i, P p) :
    ∀ (l : List Nat) (qs : List Paragraph),
      (∀ p ∈ qs, P p) → ∀ p ∈ l.foldl f qs, P p := by
  intro l
  induction l with
  | nil => intro qs h; exact h
  | cons n ns ih => intro qs h; exact ih _ (hstep qs n h)

end Justext

namespace Justext

lemma label_good_or_bad (l : Label) (h1 : l ≠ .short) (h2 : l ≠ .neargood) :
    l = .good ∨ l = .bad := by
  cases l <;> simp_all

lemma pass2From_mem (ps : List Paragraph) :
    ∀ (l : List Paragraph) (i : Nat) (q : Paragraph), q ∈ pass2From ps i l →
      (q ∈ l ∧ q.«class» ≠ .short) ∨
      ∃ p j, p ∈ l ∧ p.«class» = .short ∧
        q = { p with «class» := pass2Decide ps j } := by
  intro l
  induction l with
  | nil => intro i q hq; simp [pass2From] at hq
  | cons p rest ih =>
    intro i q hq
    simp only [pass2From, List.mem_cons] at hq
    rcases hq with hq | hq
    · by_cases hs : p.«class» = .short
      · right
        exact ⟨p, i, List.mem_cons_self p rest, hs, by simpa [hs] using hq⟩
      · left
        rw [if_neg hs] at hq
        constructor
        · rw [hq]; exact List.mem_cons_self p rest
        · rw [hq]; exact hs
    · rcases ih (i + 1) q hq with ⟨hmem, hns⟩ | ⟨p', j, hmem, hs, hq'⟩
      · exact Or.inl ⟨List.mem_cons_of_mem p hmem, hns⟩
      · exact Or.inr ⟨p', j, List.mem_cons_of_mem p hmem, hs, hq'⟩

lemma pass2_no_short (ps : List Paragraph) :
    ∀ q ∈ pass2 ps, q.«class» ≠ .short := by
  intro q hq
  rcases pass2From_mem ps ps 0 q hq with ⟨_, h⟩ | ⟨p, j, _, _, rfl⟩
  · exact h
  · show pass2Decide ps j ≠ .short
    rcases pass2Decide_good_or_bad ps j with h | h <;> simp [h]

lemma pass3Step_length (qs : List Paragraph) (i : Nat) :
    (pass3Step qs i).length = qs.length := by
  rcases pass3Step_cases qs i with ⟨heq, _⟩ | ⟨p, c, _, _, _, heq⟩ <;>
    simp [heq]

lemma foldl_length (f : List Paragraph → Nat → List Paragraph)
    (hf : ∀ qs i, (f qs i).length = qs.length) :
    ∀ (l : List Nat) (qs : List Paragraph), (l.foldl f qs).length = qs.length := by
  intro l
  induction l with
  | nil => intro qs; rfl
  | cons n ns ih => intro qs; rw [List.foldl_cons, ih, hf]

lemma pass3_foldl_spec (qs : List Paragraph)
    (h : ∀ p ∈ qs, p.«class» ≠ .short) :
    ∀ n : Nat,
      (∀ p ∈ (List.range n).foldl pass3Step qs, p.«class» ≠ .short) ∧
      (∀ j, j < n → ∀ p, ((List.range n).foldl pass3Step qs)[j]? = some p →
        p.«class» = .good ∨ p.«class» = .bad) := by
  intro n
  induction n with
  | zero => exact ⟨h, fun j hj => absurd hj (by omega)⟩
  | succ n ih =>
    rw [List.range_succ, List.foldl_append, List.foldl_cons, List.foldl_nil]
    rcases ih with ⟨ihns, ihpos⟩
    rcases pass3Step_cases ((List.range n).foldl pass3Step qs) n with
      ⟨heq, hnn⟩ | ⟨p, c, hpn, hng, hc, heq⟩
    · rw [heq]
      refine ⟨ihns, fun j hj q hq => ?_⟩
      by_cases hjn : j = n
      · subst hjn
        exact label_good_or_bad _ (ihns q (List.getElem?_mem hq)) (hnn q hq)
      · exact ihpos j (by omega) q hq
    · rw [heq]
      have hlen : n < ((List.range n).foldl pass3Step qs).length :=
        (List.getElem?_eq_some_iff.mp hpn).1
      refine ⟨?_, ?_⟩
      · intro x hx
        rcases List.mem_or_eq_of_mem_set hx with h1 | rfl
        · exact ihns x h1
        · rcases hc with rfl | rfl <;> simp
      · intro j hj x hx
        by_cases hjn : j = n
        · rw [hjn] at hx
          have hset : (((List.range n).foldl pass3Step qs).set n
              { p with «class» := c })[n]? = some { p with «class» := c } := by
            simp [List.getElem?_set, hlen]
          rw [hset] at hx
          have hx' := Option.some.inj hx
          subst hx'
          rcases hc with rfl | rfl
          · exact Or.inl rfl
          · exact Or.inr rfl
        · rw [List.getElem?_set_ne (by omega)] at hx
          exact ihpos j (by omega) x hx

end Justext

namespace Justext

lemma pass3_output (qs : List Paragraph)
    (h : ∀ p ∈ qs, p.«class» ≠ .short) :
    ∀ q ∈ pass3 qs, q.«class» = .good ∨ q.«class» = .bad := by
  intro q hq
  rcases List.mem_iff_getElem?.mp hq with ⟨j, hj⟩
  have hlen : (pass3 qs).length = qs.length :=
    foldl_length _ pass3Step_length _ _
  have hjlt : j < qs.length := by
    have := (List.getElem?_eq_some_iff.mp hj).1
    omega
  exact (pass3_foldl_spec qs h qs.length).2 j hjlt q hj

lemma pass4_preserves_good_bad (maxd : Nat) (qs : List Paragraph)
    (h : ∀ p ∈ qs, p.«class» = .good ∨ p.«class» = .bad) :
    ∀ q ∈ pass4 maxd qs, q.«class» = .good ∨ q.«class» = .bad := by
  refine foldl_mem_inv (pass4Step maxd) _ ?_ _ qs h
  intro rs i hrs q hq
  rcases pass4Step_cases maxd rs i with heq | ⟨p, hpi, _, _, _, heq⟩
  · rw [heq] at hq; exact hrs q hq
  · rw [heq] at hq
    rcases List.mem_or_eq_of_mem_set hq with h1 | rfl
    · exact hrs q h1
    · exact Or.inl rfl

/-- C1: after the context-sensitive reviser every paragraph's final
class is good or bad; neither short nor neargood survives: the short
pass resolves every short paragraph and the neargood pass resolves every
neargood one, and the heading passes only write neargood onto (then
still-unresolved) shorts or good onto bads. -/
theorem revise_only_good_bad (maxd : Nat) (ps : List Paragraph) :
    ∀ q ∈ revise_paragraph_classification maxd ps,
      q.«class» = .good ∨ q.«class» = .bad := by
  intro q hq
  unfold revise_paragraph_classification at hq
  exact pass4_preserves_good_bad maxd _
    (pass3_output _ (pass2_no_short _)) q hq

/-- Witness for `revise_only_good_bad` on a concrete run. -/
theorem revise_only_good_bad_witness :
    ({ shortParagraph with «class» := Label.bad }).«class» = Label.good ∨
    ({ shortParagraph with «class» := Label.bad }).«class» = Label.bad :=
  revise_only_good_bad MAX_HEADING_DISTANCE_DEFAULT [shortParagraph]
    { shortParagraph with «class» := Label.bad } (by decide)

/-- Final-class stability of context-free good and bad paragraphs. -/
def labelFixed (p : Paragraph) : Prop :=
  (p.cfclass = .good → p.«class» = .good) ∧
  (p.cfclass = .bad → p.«class» = .bad)

lemma labelFixed_copy (ps : List Paragraph) :
    ∀ q ∈ copyClasses ps, labelFixed q := by
  intro q hq
  rcases List.mem_map.mp hq with ⟨p, _, rfl⟩
  exact ⟨fun h => h, fun h => h⟩

lemma labelFixed_set {qs : List Paragraph} {i : Nat} {x : Paragraph}
    (h : ∀ p ∈ qs, labelFixed p) (hx : labelFixed x) :
    ∀ p ∈ qs.set i x, labelFixed p := by
  intro p hp
  rcases List.mem_or_eq_of_mem_set hp with h1 | rfl
  · exact h p h1
  · exact hx

lemma labelFixed_pass1 (maxd : Nat) (qs : List Paragraph)
    (h : ∀ p ∈ qs, labelFixed p) : ∀ q ∈ pass1 maxd qs, labelFixed q := by
  refine foldl_mem_inv (pass1Step maxd) _ ?_ _ qs h
  intro rs i hrs q hq
  rcases pass1Step_cases maxd rs i with heq | ⟨p, hpi, _, hs, heq⟩
  · rw [heq] at hq; exact hrs q hq
  · rw [heq] at hq
    refine labelFixed_set hrs ?_ q hq
    have hp := hrs p (List.getElem?_mem hpi)
    constructor
    · intro hg
      have h1 := hp.1 hg
      rw [hs] at h1
      exact absurd h1 (by decide)
    · intro hb
      have h1 := hp.2 hb
      rw [hs] at h1
      exact absurd h1 (by decide)

lemma labelFixed_pass2 (ps : List Paragraph)
    (h : ∀ p ∈ ps, labelFixed p) : ∀ q ∈ pass2 ps, labelFixed q := by
  intro q hq
  rcases pass2From_mem ps ps 0 q hq with ⟨hmem, _⟩ | ⟨p, j, hmem, hs, rfl⟩
  · exact h q hmem
  · have hp := h p hmem
    constructor
    · intro hg
      have h1 := hp.1 hg
      rw [hs] at h1
      exact absurd h1 (by decide)
    · intro hb
      have h1 := hp.2 hb
      rw [hs] at h1
      exact absurd h1 (by decide)

lemma labelFixed_pass3 (qs : List Paragraph)
    (h : ∀ p ∈ qs, labelFixed p) : ∀ q ∈ pass3 qs, labelFixed q := by
  refine foldl_mem_inv pass3Step _ ?_ _ qs h
  intro rs i hrs q hq
  rcases pass3Step_cases rs i with ⟨heq, _⟩ | ⟨p, c, hpi, hng, hc, heq⟩
  · rw [heq] at hq; exact hrs q hq
  · rw [heq] at hq
    refine labelFixed_set hrs ?_ q hq
    have hp := hrs p (List.getElem?_mem hpi)
    constructor
    · intro hg
      have h1 := hp.1 hg
      rw [hng] at h1
      exact absurd h1 (by decide)
    · intro hb
      have h1 := hp.2 hb
      rw [hng] at h1
      exact absurd h1 (by decide)

lemma labelFixed_pass4 (maxd : Nat) (qs : List Paragraph)
    (h : ∀ p ∈ qs, labelFixed p) : ∀ q ∈ pass4 maxd qs, labelFixed q := by
  refine foldl_mem_inv (pass4Step maxd) _ ?_ _ qs h
  intro rs i hrs q hq
  rcases pass4Step_cases maxd rs i with heq | ⟨p, hpi, _, _, hcf, heq⟩
  · rw [heq] at hq; exact hrs q hq
  · rw [heq] at hq
    refine labelFixed_set hrs ?_ q hq
    exact ⟨fun _ => rfl, fun hbad => absurd hbad hcf⟩

/-- C9: the reviser never reclassifies a paragraph whose context-free
class is already final: context-free good paragraphs end good and
context-free bad paragraphs end bad, so only short or neargood
paragraphs can receive a different final class. -/
theorem revise_keeps_final_cfclass (maxd : Nat) (ps : List Paragraph) :
    ∀ q ∈ revise_paragraph_classification maxd ps,
      (q.cfclass = .good → q.«class» = .good) ∧
      (q.cfclass = .bad → q.«class» = .bad) := by
  intro q hq
  unfold revise_paragraph_classification at hq
  exact labelFixed_pass4 maxd _
    (labelFixed_pass3 _ (labelFixed_pass2 _
      (labelFixed_pass1 maxd _ (labelFixed_copy ps)))) q hq

/-- Witness for `revise_keeps_final_cfclass` on a concrete run. -/
theorem revise_keeps_final_cfclass_witness :
    (({ shortParagraph with
        cfclass := Label.good, «class» := Label.good }).cfclass = Label.good →
      ({ shortParagraph with
        cfclass := Label.good, «class» := Label.good }).«class» = Label.good) ∧
    (({ shortParagraph with
        cfclass := Label.good, «class» := Label.good }).cfclass = Label.bad →
      ({ shortParagraph with
        cfclass := Label.good, «class» := Label.good }).«class» = Label.bad) :=
  revise_keeps_final_cfclass MAX_HEADING_DISTANCE_DEFAULT
    [{ shortParagraph with cfclass := Label.good }] _ (by decide)

/-- Every paragraph field except the final class, as a tuple. -/
def frameOf (p : Paragraph) :=
  (p.dom_path, p.text_nodes, p.text, p.word_count, p.linked_char_count,
   p.tag_count, p.stopword_count, p.stopword_density, p.link_density,
   p.heading, p.cfclass)

lemma frame_set (qs : List Paragraph) (i : Nat) (p : Paragraph) (c : Label)
    (hpi : qs[i]? = some p) :
    (qs.set i { p with «class» := c }).map frameOf = qs.map frameOf := by
  apply List.ext_getElem?
  intro j
  rw [List.getElem?_map, List.getElem?_map]
  by_cases hij : i = j
  · rw [← hij, hpi]
    have hlen : i < qs.length := (List.getElem?_eq_some_iff.mp hpi).1
    have hset : (qs.set i { p with «class» := c })[i]?
        = some { p with «class» := c } := by
      simp [List.getElem?_set, hlen]
    rw [hset]
    rfl
  · rw [List.getElem?_set_ne hij]

lemma frame_foldl (f : List Paragraph → Nat → List Paragraph)
    (hf : ∀ qs i, (f qs i).map frameOf = qs.map frameOf) :
    ∀ (l : List Nat) (qs : List Paragraph),
      (l.foldl f qs).map frameOf = qs.map frameOf := by
  intro l
  induction l with
  | nil => intro qs; rfl
  | cons n ns ih => intro qs; rw [List.foldl_cons, ih, hf]

lemma frame_pass1Step (maxd : Nat) (qs : List Paragraph) (i : Nat) :
    (pass1Step maxd qs i).map frameOf = qs.map frameOf := by
  rcases pass1Step_cases maxd qs i with heq | ⟨p, hpi, _, _, heq⟩
  · rw [heq]
  · rw [heq, frame_set qs i p _ hpi]

lemma frame_pass3Step (qs : List Paragraph) (i : Nat) :
    (pass3Step qs i).map frameOf = qs.map frameOf := by
  rcases pass3Step_cases qs i with ⟨heq, _⟩ | ⟨p, c, hpi, _, _, heq⟩
  · rw [heq]
  · rw [heq, frame_set qs i p _ hpi]

lemma frame_pass4Step (maxd : Nat) (qs : List Paragraph) (i : Nat) :
    (pass4Step maxd qs i).map frameOf = qs.map frameOf := by
  rcases pass4Step_cases maxd qs i with heq | ⟨p, hpi, _, _, _, heq⟩
  · rw [heq]
  · rw [heq, frame_set qs i p _ hpi]

lemma frame_pass2From (ps : List Paragraph) :
    ∀ (l : List Paragraph) (i : Nat),
      (pass2From ps i l).map frameOf = l.map frameOf := by
  intro l
  induction l with
  | nil => intro i; rfl
  | cons p rest ih =>
    intro i
    simp only [pass2From, List.map_cons, ih (i + 1)]
    by_cases hs : p.«class» = .short
    · rw [if_pos hs]
      rfl
    · rw [if_neg hs]

lemma frame_copy (ps : List Paragraph) :
    (copyClasses ps).map frameOf = ps.map frameOf := by
  unfold copyClasses
  rw [List.map_map]
  rfl

/-- C10: the context-sensitive reviser mutates only the class field:
the sequence keeps its length and order, and text, dom_path, word_count,
linked_char_count, tag_count, stopword_count, stopword_density,
link_density, heading and cfclass of every paragraph are unchanged. -/
theorem revise_changes_only_class (maxd : Nat) (ps : List Paragraph) :
    (revise_paragraph_classification maxd ps).length = ps.length ∧
    (revise_paragraph_classification maxd ps).map frameOf
      = ps.map frameOf := by
  have h : (revise_paragraph_classification maxd ps).map frameOf
      = ps.map frameOf := by
    unfold revise_paragraph_classification pass4 pass3 pass1 pass2
    rw [frame_foldl _ (frame_pass4Step maxd),
      frame_foldl _ frame_pass3Step, frame_pass2From,
      frame_foldl _ (frame_pass1Step maxd), frame_copy]
  refine ⟨?_, h⟩
  have := congrArg List.length h
  simpa using this

end Justext

namespace Justext

/-! Scan characterizations: necessary and sufficient positional
conditions for the results of the neighbour walks. -/

lemma scanNeighbour_true_good_or_bad :
    ∀ l : List Label, scanNeighbour true l = .good ∨ scanNeighbour true l = .bad := by
  intro l
  induction l with
  | nil => exact Or.inr rfl
  | cons c rest ih =>
    cases c with
    | good => left; simp [scanNeighbour]
    | bad => right; simp [scanNeighbour]
    | short => simpa [scanNeighbour] using ih
    | neargood => simpa [scanNeighbour] using ih

lemma scanNeighbour_cons_skip (ig : Bool) (c : Label) (rest : List Label)
    (hg : c ≠ .good) (hb : c ≠ .bad)
    (hng : c = .neargood → ig = true) :
    scanNeighbour ig (c :: rest) = scanNeighbour ig rest := by
  cases c with
  | good => exact absurd rfl hg
  | bad => exact absurd rfl hb
  | short => simp [scanNeighbour]
  | neargood => simp [scanNeighbour, hng rfl]

lemma scan_true_good_nec :
    ∀ l : List Label, scanNeighbour true l = .good →
      ∃ r : Nat, l[r]? = some Label.good ∧
        ∀ s : Nat, s < r → ∀ d, l[s]? = some d →
          d = Label.short ∨ d = Label.neargood := by
  intro l
  induction l with
  | nil => intro h; simp [scanNeighbour] at h
  | cons c rest ih =>
    intro h
    cases c with
    | good =>
      exact ⟨0, by simp, fun s hs => absurd hs (by omega)⟩
    | bad => simp [scanNeighbour] at h
    | short =>
      rw [scanNeighbour_cons_skip true _ rest (by simp) (by simp) (by simp)] at h
      rcases ih h with ⟨r, hr, hmid⟩
      refine ⟨r + 1, by simpa using hr, ?_⟩
      intro s hs d hd
      cases s with
      | zero =>
        simp at hd
        exact Or.inl hd.symm
      | succ s' => exact hmid s' (by omega) d (by simpa using hd)
    | neargood =>
      rw [scanNeighbour_cons_skip true _ rest (by simp) (by simp) (by simp)] at h
      rcases ih h with ⟨r, hr, hmid⟩
      refine ⟨r + 1, by simpa using hr, ?_⟩
      intro s hs d hd
      cases s with
      | zero =>
        simp at hd
        exact Or.inr hd.symm
      | succ s' => exact hmid s' (by omega) d (by simpa using hd)

lemma scan_true_good_suff :
    ∀ (l : List Label) (r : Nat), l[r]? = some Label.good →
      (∀ s : Nat, s < r → ∀ d, l[s]? = some d →
        d = Label.short ∨ d = Label.neargood ∨ d = Label.good) →
      scanNeighbour true l = .good := by
  intro l
  induction l with
  | nil => intro r hr; simp at hr
  | cons c rest ih =>
    intro r hr hmid
    cases r with
    | zero =>
      have hc : c = Label.good := by simpa using hr
      subst hc
      simp [scanNeighbour]
    | succ r' =>
      rcases hmid 0 (by omega) c (by simp) with rfl | rfl | rfl
      · rw [scanNeighbour_cons_skip true _ rest (by simp) (by simp) (by simp)]
        exact ih r' (by simpa using hr)
          (fun s hs d hd => hmid (s + 1) (by omega) d (by simpa using hd))
      · rw [scanNeighbour_cons_skip true _ rest (by simp) (by simp) (by simp)]
        exact ih r' (by simpa using hr)
          (fun s hs d hd => hmid (s + 1) (by omega) d (by simpa using hd))
      · simp [scanNeighbour]

lemma scan_false_ng_nec :
    ∀ l : List Label, scanNeighbour false l = .neargood →
      ∃ r : Nat, l[r]? = some Label.neargood ∧
        ∀ s : Nat, s < r → ∀ d, l[s]? = some d → d = Label.short := by
  intro l
  induction l with
  | nil => intro h; simp [scanNeighbour] at h
  | cons c rest ih =>
    intro h
    cases c with
    | good => simp [scanNeighbour] at h
    | bad => simp [scanNeighbour] at h
    | short =>
      rw [scanNeighbour_cons_skip false _ rest (by simp) (by simp) (by simp)] at h
      rcases ih h with ⟨r, hr, hmid⟩
      refine ⟨r + 1, by simpa using hr, ?_⟩
      intro s hs d hd
      cases s with
      | zero =>
        simp at hd
        exact hd.symm
      | succ s' => exact hmid s' (by omega) d (by simpa using hd)
    | neargood =>
      exact ⟨0, by simp, fun s hs => absurd hs (by omega)⟩

lemma scan_false_ng_suff :
    ∀ (l : List Label) (r : Nat), l[r]? = some Label.neargood →
      (∀ s : Nat, s < r → ∀ d, l[s]? = some d →
        d = Label.short ∨ d = Label.neargood) →
      scanNeighbour false l = .neargood := by
  intro l
  induction l with
  | nil => intro r hr; simp at hr
  | cons c rest ih =>
    intro r hr hmid
    cases r with
    | zero =>
      have hc : c = Label.neargood := by simpa using hr
      subst hc
      simp [scanNeighbour]
    | succ r' =>
      rcases hmid 0 (by omega) c (by simp) with rfl | rfl
      · rw [scanNeighbour_cons_skip false _ rest (by simp) (by simp) (by simp)]
        exact ih r' (by simpa using hr)
          (fun s hs d hd => hmid (s + 1) (by omega) d (by simpa using hd))
      · simp [scanNeighbour]

end Justext

namespace Justext

/-! Index-level wrappers for the neighbour scans. -/

/-- Class label stored at position `t`. -/
def clsAt (ps : List Paragraph) (t : Nat) : Option Label :=
  (ps[t]?).map (fun p => p.«class»)

lemma classesOf_getElem? (ps : List Paragraph) (t : Nat) :
    (classesOf ps)[t]? = clsAt ps t := by
  simp [classesOf, clsAt, List.getElem?_map]

lemma nextList_getElem? (ps : List Paragraph) (i r : Nat) :
    ((classesOf ps).drop (i + 1))[r]? = clsAt ps (i + 1 + r) := by
  rw [List.getElem?_drop, classesOf_getElem?]

lemma prevList_length (ps : List Paragraph) (i : Nat) (hi : i ≤ ps.length) :
    (((classesOf ps).take i).reverse).length = i := by
  simp [classesOf]
  omega

lemma prevList_getElem? (ps : List Paragraph) (i r : Nat) (hr : r < i)
    (hi : i ≤ ps.length) :
    (((classesOf ps).take i).reverse)[r]? = clsAt ps (i - 1 - r) := by
  have hlen : ((classesOf ps).take i).length = i := by
    simp [classesOf]; omega
  rw [List.getElem?_reverse (by omega), hlen, List.getElem?_take,
    if_pos (by omega : i - 1 - r < i), classesOf_getElem?]

lemma get_next_good_nec (i : Nat) (ps : List Paragraph)
    (h : get_next_neighbour i ps true = .good) :
    ∃ j : Nat, i < j ∧ clsAt ps j = some Label.good ∧
      ∀ t : Nat, i < t → t < j → ∀ d, clsAt ps t = some d →
        d = Label.short ∨ d = Label.neargood := by
  rcases scan_true_good_nec _ h with ⟨r, hr, hmid⟩
  rw [nextList_getElem?] at hr
  refine ⟨i + 1 + r, by omega, hr, ?_⟩
  intro t ht1 ht2 d hd
  refine hmid (t - (i + 1)) (by omega) d ?_
  rw [nextList_getElem?, show i + 1 + (t - (i + 1)) = t by omega]
  exact hd

lemma get_next_good_suff (i j : Nat) (ps : List Paragraph) (hij : i < j)
    (hj : clsAt ps j = some Label.good)
    (hmid : ∀ t : Nat, i < t → t < j → ∀ d, clsAt ps t = some d →
      d = Label.short ∨ d = Label.neargood ∨ d = Label.good) :
    get_next_neighbour i ps true = .good := by
  apply scan_true_good_suff _ (j - (i + 1))
  · rw [nextList_getElem?, show i + 1 + (j - (i + 1)) = j by omega]
    exact hj
  · intro s hs d hd
    rw [nextList_getElem?] at hd
    exact hmid (i + 1 + s) (by omega) (by omega) d hd

lemma get_prev_good_nec (i : Nat) (ps : List Paragraph) (hi : i ≤ ps.length)
    (h : get_prev_neighbour i ps true = .good) :
    ∃ j : Nat, j < i ∧ clsAt ps j = some Label.good ∧
      ∀ t : Nat, j < t → t < i → ∀ d, clsAt ps t = some d →
        d = Label.short ∨ d = Label.neargood := by
  rcases scan_true_good_nec _ h with ⟨r, hr, hmid⟩
  have hrlt : r < i := by
    by_contra hge
    push_neg at hge
    rw [List.getElem?_eq_none (by rw [prevList_length ps i hi]; omega)] at hr
    cases hr
  rw [prevList_getElem? ps i r hrlt hi] at hr
  refine ⟨i - 1 - r, by omega, hr, ?_⟩
  intro t ht1 ht2 d hd
  refine hmid (i - 1 - t) (by omega) d ?_
  rw [prevList_getElem? ps i _ (by omega) hi,
    show i - 1 - (i - 1 - t) = t by omega]
  exact hd

lemma get_prev_good_suff (i j : Nat) (ps : List Paragraph) (hi : i ≤ ps.length)
    (hij : j < i) (hj : clsAt ps j = some Label.good)
    (hmid : ∀ t : Nat, j < t → t < i → ∀ d, clsAt ps t = some d →
      d = Label.short ∨ d = Label.neargood ∨ d = Label.good) :
    get_prev_neighbour i ps true = .good := by
  apply scan_true_good_suff _ (i - 1 - j)
  · rw [prevList_getElem? ps i _ (by omega) hi,
      show i - 1 - (i - 1 - j) = j by omega]
    exact hj
  · intro s hs d hd
    have hslt : s < i := by omega
    rw [prevList_getElem? ps i s hslt hi] at hd
    exact hmid (i - 1 - s) (by omega) (by omega) d hd

lemma get_next_ng_nec (i : Nat) (ps : List Paragraph)
    (h : get_next_neighbour i ps false = .neargood) :
    ∃ j : Nat, i < j ∧ clsAt ps j = some Label.neargood ∧
      ∀ t : Nat, i < t → t < j → ∀ d, clsAt ps t = some d →
        d = Label.short := by
  rcases scan_false_ng_nec _ h with ⟨r, hr, hmid⟩
  rw [nextList_getElem?] at hr
  refine ⟨i + 1 + r, by omega, hr, ?_⟩
  intro t ht1 ht2 d hd
  refine hmid (t - (i + 1)) (by omega) d ?_
  rw [nextList_getElem?, show i + 1 + (t - (i + 1)) = t by omega]
  exact hd

lemma get_next_ng_suff (i j : Nat) (ps : List Paragraph) (hij : i < j)
    (hj : clsAt ps j = some Label.neargood)
    (hmid : ∀ t : Nat, i < t → t < j → ∀ d, clsAt ps t = some d →
      d = Label.short ∨ d = Label.neargood) :
    get_next_neighbour i ps false = .neargood := by
  apply scan_false_ng_suff _ (j - (i + 1))
  · rw [nextList_getElem?, show i + 1 + (j - (i + 1)) = j by omega]
    exact hj
  · intro s hs d hd
    rw [nextList_getElem?] at hd
    exact hmid (i + 1 + s) (by omega) (by omega) d hd

lemma get_prev_ng_nec (i : Nat) (ps : List Paragraph) (hi : i ≤ ps.length)
    (h : get_prev_neighbour i ps false = .neargood) :
    ∃ j : Nat, j < i ∧ clsAt ps j = some Label.neargood ∧
      ∀ t : Nat, j < t → t < i → ∀ d, clsAt ps t = some d →
        d = Label.short := by
  rcases scan_false_ng_nec _ h with ⟨r, hr, hmid⟩
  have hrlt : r < i := by
    by_contra hge
    push_neg at hge
    rw [List.getElem?_eq_none (by rw [prevList_length ps i hi]; omega)] at hr
    cases hr
  rw [prevList_getElem? ps i r hrlt hi] at hr
  refine ⟨i - 1 - r, by omega, hr, ?_⟩
  intro t ht1 ht2 d hd
  refine hmid (i - 1 - t) (by omega) d ?_
  rw [prevList_getElem? ps i _ (by omega) hi,
    show i - 1 - (i - 1 - t) = t by omega]
  exact hd

lemma get_prev_ng_suff (i j : Nat) (ps : List Paragraph) (hi : i ≤ ps.length)
    (hij : j < i) (hj : clsAt ps j = some Label.neargood)
    (hmid : ∀ t : Nat, j < t → t < i → ∀ d, clsAt ps t = some d →
      d = Label.short ∨ d = Label.neargood) :
    get_prev_neighbour i ps false = .neargood := by
  apply scan_false_ng_suff _ (i - 1 - j)
  · rw [prevList_getElem? ps i _ (by omega) hi,
      show i - 1 - (i - 1 - j) = j by omega]
    exact hj
  · intro s hs d hd
    have hslt : s < i := by omega
    rw [prevList_getElem? ps i s hslt hi] at hd
    exact hmid (i - 1 - s) (by omega) (by omega) d hd

lemma get_prev_good_or_bad (i : Nat) (ps : List Paragraph) :
    get_prev_neighbour i ps true = .good ∨ get_prev_neighbour i ps true = .bad :=
  scanNeighbour_true_good_or_bad _

lemma get_next_good_or_bad (i : Nat) (ps : List Paragraph) :
    get_next_neighbour i ps true = .good ∨ get_next_neighbour i ps true = .bad :=
  scanNeighbour_true_good_or_bad _

end Justext

namespace Justext

/-! Decision lemmas for the short-resolution pass. -/

lemma pass2Decide_nec_good (ps : List Paragraph) (i : Nat)
    (h : pass2Decide ps i = .good) :
    (get_prev_neighbour i ps true = .good ∧
      get_next_neighbour i ps true = .good) ∨
    (get_prev_neighbour i ps true = .bad ∧
      get_next_neighbour i ps true = .good ∧
      get_prev_neighbour i ps false = .neargood) ∨
    (get_prev_neighbour i ps true = .good ∧
      get_next_neighbour i ps true = .bad ∧
      get_next_neighbour i ps false = .neargood) := by
  simp only [pass2Decide] at h
  split at h
  · rename_i hcond
    simp only [Bool.and_eq_true, decide_eq_true_eq] at hcond
    exact Or.inl hcond
  · rename_i h1
    split at h
    · cases h
    · rename_i h2
      split at h
      · rename_i h3
        simp only [Bool.and_eq_true, Bool.or_eq_true, decide_eq_true_eq] at h1 h2 h3
        rcases h3 with ⟨hpb, hlp⟩ | ⟨hnb, hln⟩
        · have hng : get_next_neighbour i ps true = .good := by
            rcases get_next_good_or_bad i ps with hg | hb
            · exact hg
            · exact absurd ⟨hpb, hb⟩ h2
          exact Or.inr (Or.inl ⟨hpb, hng, hlp⟩)
        · have hpg : get_prev_neighbour i ps true = .good := by
            rcases get_prev_good_or_bad i ps with hg | hb
            · exact hg
            · exact absurd ⟨hb, hnb⟩ h2
          exact Or.inr (Or.inr ⟨hpg, hnb, hln⟩)
      · cases h

lemma pass2Decide_suff_both (ps : List Paragraph) (i : Nat)
    (hp : get_prev_neighbour i ps true = .good)
    (hn : get_next_neighbour i ps true = .good) :
    pass2Decide ps i = .good := by
  simp [pass2Decide, hp, hn]

lemma pass2Decide_suff_next (ps : List Paragraph) (i : Nat)
    (hn : get_next_neighbour i ps true = .good)
    (hlp : get_prev_neighbour i ps false = .neargood) :
    pass2Decide ps i = .good := by
  rcases get_prev_good_or_bad i ps with hp | hp
  · simp [pass2Decide, hp, hn]
  · simp [pass2Decide, hp, hn, hlp]

lemma pass2Decide_suff_prev (ps : List Paragraph) (i : Nat)
    (hp : get_prev_neighbour i ps true = .good)
    (hln : get_next_neighbour i ps false = .neargood) :
    pass2Decide ps i = .good := by
  rcases get_next_good_or_bad i ps with hn | hn
  · simp [pass2Decide, hp, hn]
  · simp [pass2Decide, hp, hn, hln]

/-! Heading-scan monotonicity: extra good paragraphs can only help. -/

lemma headingScan_mono (maxd : Nat) :
    ∀ (l l' : List Paragraph), l.length = l'.length →
      (∀ t : Nat, ∀ p q, l[t]? = some p → l'[t]? = some q →
        p.text = q.text ∧ (p.«class» = .good → q.«class» = .good)) →
      ∀ d : Nat, headingScan maxd d l = true → headingScan maxd d l' = true := by
  intro l
  induction l with
  | nil => intro l' hlen _ d h; simp [headingScan] at h
  | cons p rest ih =>
    intro l' hlen hrel d h
    cases l' with
    | nil => simp at hlen
    | cons q rest' =>
      have h0 := hrel 0 p q (by simp) (by simp)
      have hrel2 : ∀ t : Nat, ∀ pa qa, rest[t]? = some pa → rest'[t]? = some qa →
          pa.text = qa.text ∧ (pa.«class» = .good → qa.«class» = .good) :=
        fun t pa qa hp hq =>
          hrel (t + 1) pa qa (by simpa using hp) (by simpa using hq)
      by_cases hd : maxd < d
      · simp [headingScan, hd] at h
      · by_cases hg : p.«class» = .good
        · have hqg := h0.2 hg
          simp [headingScan, hd, hqg]
        · have hrec : headingScan maxd (d + p.text.length) rest = true := by
            simpa [headingScan, hd, hg] using h
          by_cases hqg : q.«class» = .good
          · simp [headingScan, hd, hqg]
          · have := ih rest' (by simpa using hlen) hrel2 (d + p.text.length) hrec
            rw [h0.1] at this
            simpa [headingScan, hd, hqg] using this

end Justext

namespace Justext

/-! Classifier monotonicity in `max_link_density`. -/

lemma link_densityOf_nonneg (p : Paragraph) : 0 ≤ link_densityOf p := by
  unfold link_densityOf
  split
  · exact le_refl 0
  · rw [Rat.mkRat_eq_div]
    positivity

lemma link_densityOf_pos_linked (p : Paragraph) (h : 0 < link_densityOf p) :
    0 < p.linked_char_count := by
  rcases Nat.eq_zero_or_pos p.linked_char_count with hz | hp'
  · exfalso
    have hld : link_densityOf p = 0 := by
      unfold link_densityOf
      split
      · rfl
      · rw [hz, Rat.mkRat_eq_div]
        simp
    rw [hld] at h
    exact lt_irrefl 0 h
  · exact hp'

lemma cfclassOf_mono (stoplist : List Str) (o : Options) (m' : ℚ) (p : Paragraph)
    (hm : o.max_link_density ≤ m') (h0 : 0 ≤ o.max_link_density) :
    cfclassOf stoplist o p
        = cfclassOf stoplist { o with max_link_density := m' } p ∨
    (cfclassOf stoplist o p = .bad ∧
      cfclassOf stoplist { o with max_link_density := m' } p ≠ .short) := by
  by_cases hld : o.max_link_density < link_densityOf p
  · by_cases hld' : m' < link_densityOf p
    · left
      unfold cfclassOf
      rw [if_pos hld, if_pos (by simpa using hld')]
    · right
      have hlink : 0 < p.linked_char_count :=
        link_densityOf_pos_linked p (lt_of_le_of_lt h0 hld)
      constructor
      · unfold cfclassOf
        rw [if_pos hld]
      · unfold cfclassOf
        rw [if_neg (by simpa using hld')]
        repeat' split
        all_goals simp
  · left
    have h2 : ¬ ({ o with max_link_density := m' }.max_link_density
        < link_densityOf p) :=
      not_lt.mpr (le_trans (not_lt.mp hld) hm)
    unfold cfclassOf
    rw [if_neg hld, if_neg h2]

lemma classify_one_mono (stoplist : List Str) (o : Options) (m' : ℚ) (p : Paragraph)
    (hm : o.max_link_density ≤ m') (h0 : 0 ≤ o.max_link_density) :
    (classify_one stoplist o p).text
        = (classify_one stoplist { o with max_link_density := m' } p).text ∧
    (classify_one stoplist o p).heading
        = (classify_one stoplist { o with max_link_density := m' } p).heading ∧
    ((classify_one stoplist o p).cfclass
        = (classify_one stoplist { o with max_link_density := m' } p).cfclass ∨
      ((classify_one stoplist o p).cfclass = .bad ∧
        (classify_one stoplist { o with max_link_density := m' } p).cfclass
          ≠ .short)) :=
  ⟨rfl, rfl, cfclassOf_mono stoplist o m' p hm h0⟩

/-! The simulation relation between the two runs. -/

/-- Class-pair relation right after the cfclass copy. -/
def RelA (a b : Label) : Prop :=
  a = b ∨ (a = .bad ∧ (b = .good ∨ b = .neargood))

/-- Class-pair relation during and after the first heading pass. -/
def RelB (a b : Label) : Prop :=
  RelA a b ∨ (a = .short ∧ b = .neargood)

/-- Class-pair relation after the short pass. -/
def RelC (a b : Label) : Prop :=
  a = b ∨ (a = .bad ∧ (b = .good ∨ b = .neargood)) ∨
    (a = .good ∧ b = .neargood)

/-- Class-pair relation after the neargood pass (and the final one). -/
def RelD (a b : Label) : Prop :=
  a = b ∨ (a = .bad ∧ b = .good)

/-- Pointwise simulation between the two runs: same length, same text
and heading, cfclass changed only from bad to a non-short value, and the
current class labels related by `R`. -/
def SimRel (R : Label → Label → Prop) (xs ys : List Paragraph) : Prop :=
  xs.length = ys.length ∧
  ∀ t : Nat, ∀ p q, xs[t]? = some p → ys[t]? = some q →
    p.text = q.text ∧ p.heading = q.heading ∧
    (p.cfclass = q.cfclass ∨ (p.cfclass = .bad ∧ q.cfclass ≠ .short)) ∧
    R p.«class» q.«class»

lemma SimRel.partner {R : Label → Label → Prop} {xs ys : List Paragraph}
    (h : SimRel R xs ys) {t : Nat} {p : Paragraph} (hp : xs[t]? = some p) :
    ∃ q, ys[t]? = some q := by
  have ht : t < xs.length := (List.getElem?_eq_some_iff.mp hp).1
  have ht' : t < ys.length := h.1 ▸ ht
  exact ⟨ys[t], List.getElem?_eq_getElem ht'⟩

lemma SimRel.partner' {R : Label → Label → Prop} {xs ys : List Paragraph}
    (h : SimRel R xs ys) {t : Nat} {q : Paragraph} (hq : ys[t]? = some q) :
    ∃ p, xs[t]? = some p := by
  have ht : t < ys.length := (List.getElem?_eq_some_iff.mp hq).1
  have hl := h.1
  have ht' : t < xs.length := by omega
  exact ⟨xs[t], List.getElem?_eq_getElem ht'⟩

lemma SimRel.clsAt_rel {R : Label → Label → Prop} {xs ys : List Paragraph}
    (h : SimRel R xs ys) {t : Nat} {d : Label} (hd : clsAt xs t = some d) :
    ∃ e, clsAt ys t = some e ∧ R d e := by
  unfold clsAt at hd
  rcases Option.map_eq_some'.mp hd with ⟨p, hp, hdp⟩
  rcases h.partner hp with ⟨q, hq⟩
  refine ⟨q.«class», ?_, ?_⟩
  · unfold clsAt
    rw [hq, Option.map_some']
  · rw [← hdp]
    exact (h.2 t p q hp hq).2.2.2

lemma SimRel.clsAt_rel' {R : Label → Label → Prop} {xs ys : List Paragraph}
    (h : SimRel R xs ys) {t : Nat} {e : Label} (he : clsAt ys t = some e) :
    ∃ d, clsAt xs t = some d ∧ R d e := by
  unfold clsAt at he
  rcases Option.map_eq_some'.mp he with ⟨q, hq, heq⟩
  rcases h.partner' hq with ⟨p, hp⟩
  refine ⟨p.«class», ?_, ?_⟩
  · unfold clsAt
    rw [hp, Option.map_some']
  · rw [← heq]
    exact (h.2 t p q hp hq).2.2.2

end Justext

namespace Justext

/-! Elementary facts about the class-pair relations. -/

lemma RelA.toB {a b : Label} (h : RelA a b) : RelB a b := Or.inl h

lemma RelB.goodB {a b : Label} (h : RelB a b) (ha : a = .good) : b = .good := by
  unfold RelB RelA at h
  rcases h with (rfl | ⟨rfl, h1 | h1⟩) | ⟨rfl, rfl⟩ <;> simp_all

lemma RelB.short {a b : Label} (h : RelB a b) (ha : a = .short) :
    b = .short ∨ b = .neargood := by
  unfold RelB RelA at h
  rcases h with (rfl | ⟨rfl, h1 | h1⟩) | ⟨rfl, rfl⟩ <;> simp_all

lemma RelB.ngB {a b : Label} (h : RelB a b) (ha : a = .neargood) :
    b = .neargood := by
  unfold RelB RelA at h
  rcases h with (rfl | ⟨rfl, h1 | h1⟩) | ⟨rfl, rfl⟩ <;> simp_all

lemma RelB.short_rev {a b : Label} (h : RelB a b) (hb : b = .short) :
    a = .short := by
  unfold RelB RelA at h
  rcases h with (rfl | ⟨rfl, h1 | h1⟩) | ⟨rfl, rfl⟩ <;> simp_all

lemma RelB.skipped {a b : Label} (h : RelB a b)
    (ha : a = .short ∨ a = .neargood) : b = .short ∨ b = .neargood := by
  rcases ha with rfl | rfl
  · exact h.short rfl
  · exact Or.inr (h.ngB rfl)

lemma RelC.goodC {a b : Label} (h : RelC a b) (ha : a = .good) :
    b = .good ∨ b = .neargood := by
  unfold RelC at h
  rcases h with rfl | ⟨rfl, h1 | h1⟩ | ⟨rfl, rfl⟩ <;> simp_all

lemma RelC.ngC {a b : Label} (h : RelC a b) (ha : a = .neargood) :
    b = .neargood := by
  unfold RelC at h
  rcases h with rfl | ⟨rfl, h1 | h1⟩ | ⟨rfl, rfl⟩ <;> simp_all

lemma RelC.short_none {a b : Label} (h : RelC a b) :
    (a = .short → b = .short) ∧ (b = .short → a = .short) := by
  unfold RelC at h
  rcases h with rfl | ⟨rfl, h1 | h1⟩ | ⟨rfl, rfl⟩ <;> simp_all

lemma RelD.goodD {a b : Label} (h : RelD a b) (ha : a = .good) : b = .good := by
  unfold RelD at h
  rcases h with rfl | ⟨rfl, rfl⟩ <;> simp_all

/-! Positional characterization of the short pass. -/

lemma pass2From_getElem? (ps : List Paragraph) :
    ∀ (l : List Paragraph) (j t : Nat),
      (pass2From ps j l)[t]? = (l[t]?).map (fun p =>
        if p.«class» = .short then { p with «class» := pass2Decide ps (j + t) }
        else p) := by
  intro l
  induction l with
  | nil => intro j t; simp [pass2From]
  | cons p rest ih =>
    intro j t
    cases t with
    | zero => simp [pass2From]
    | succ t' =>
      have harith : j + 1 + t' = j + (t' + 1) := by omega
      simp only [pass2From, List.getElem?_cons_succ, ih (j + 1) t', harith]

lemma pass2_getElem? (ps : List Paragraph) (t : Nat) :
    (pass2 ps)[t]? = (ps[t]?).map (fun p =>
      if p.«class» = .short then { p with «class» := pass2Decide ps t }
      else p) := by
  have := pass2From_getElem? ps ps 0 t
  simpa [pass2] using this

lemma pass2From_length (ps : List Paragraph) :
    ∀ (l : List Paragraph) (j : Nat), (pass2From ps j l).length = l.length := by
  intro l
  induction l with
  | nil => intro j; rfl
  | cons p rest ih => intro j; simp [pass2From, ih]

lemma pass2_length (ps : List Paragraph) : (pass2 ps).length = ps.length :=
  pass2From_length ps ps 0

end Justext

namespace Justext

/-! Joint simulation of the two runs, pass by pass. -/

lemma simRel_init (stoplist : List Str) (o : Options) (m' : ℚ)
    (ps : List Paragraph)
    (hm : o.max_link_density ≤ m') (h0 : 0 ≤ o.max_link_density) :
    SimRel RelA
      (copyClasses (classify_paragraphs stoplist o ps))
      (copyClasses
        (classify_paragraphs stoplist { o with max_link_density := m' } ps)) := by
  constructor
  · simp [copyClasses, classify_paragraphs]
  · intro t p q hp hq
    simp only [copyClasses, classify_paragraphs, List.map_map,
      List.getElem?_map] at hp hq
    rcases Option.map_eq_some'.mp hp with ⟨p0, hp0, hp1⟩
    rcases Option.map_eq_some'.mp hq with ⟨q0, hq0, hq1⟩
    have hq0' : q0 = p0 := by
      rw [hp0] at hq0
      exact (Option.some.inj hq0).symm
    rw [hq0'] at hq1
    obtain ⟨ht, hh, hcf⟩ := classify_one_mono stoplist o m' p0 hm h0
    subst hp1
    subst hq1
    refine ⟨ht, hh, ?_, ?_⟩
    · exact hcf
    · show RelA (classify_one stoplist o p0).cfclass
        (classify_one stoplist { o with max_link_density := m' } p0).cfclass
      rcases hcf with heq | ⟨ha, hb⟩
      · exact Or.inl heq
      · cases hcb : (classify_one stoplist
            { o with max_link_density := m' } p0).cfclass with
        | good => exact Or.inr ⟨ha, Or.inl rfl⟩
        | bad => exact Or.inl ha
        | short => exact absurd hcb hb
        | neargood => exact Or.inr ⟨ha, Or.inr rfl⟩

lemma simRel_set_class_both {R : Label → Label → Prop} {xs ys : List Paragraph}
    {i : Nat} {p q : Paragraph}
    (h : SimRel R xs ys) (hp : xs[i]? = some p) (hq : ys[i]? = some q)
    (c d : Label) (hr : R c d) :
    SimRel R (xs.set i { p with «class» := c }) (ys.set i { q with «class» := d }) := by
  have hil : i < xs.length := (List.getElem?_eq_some_iff.mp hp).1
  have hil' : i < ys.length := (List.getElem?_eq_some_iff.mp hq).1
  constructor
  · simp [h.1]
  · intro t x y hx hy
    by_cases hti : t = i
    · subst hti
      have hx' : (xs.set t { p with «class» := c })[t]? = some { p with «class» := c } := by
        simp [List.getElem?_set, hil]
      have hy' : (ys.set t { q with «class» := d })[t]? = some { q with «class» := d } := by
        simp [List.getElem?_set, hil']
      have hxv : x = { p with «class» := c } := by
        rw [hx] at hx'
        exact Option.some.inj hx'
      have hyv : y = { q with «class» := d } := by
        rw [hy] at hy'
        exact Option.some.inj hy'
      subst hxv
      subst hyv
      obtain ⟨ht, hh, hcf, _⟩ := h.2 t p q hp hq
      exact ⟨ht, hh, hcf, hr⟩
    · rw [List.getElem?_set_ne (Ne.symm hti)] at hx hy
      exact h.2 t x y hx hy

lemma simRel_set_class_right {R : Label → Label → Prop} {xs ys : List Paragraph}
    {i : Nat} {p q : Paragraph}
    (h : SimRel R xs ys) (hp : xs[i]? = some p) (hq : ys[i]? = some q)
    (d : Label) (hr : R p.«class» d) :
    SimRel R xs (ys.set i { q with «class» := d }) := by
  have hil' : i < ys.length := (List.getElem?_eq_some_iff.mp hq).1
  constructor
  · simp [h.1]
  · intro t x y hx hy
    by_cases hti : t = i
    · subst hti
      have hy' : (ys.set t { q with «class» := d })[t]? = some { q with «class» := d } := by
        simp [List.getElem?_set, hil']
      have hyv : y = { q with «class» := d } := by
        rw [hy] at hy'
        exact Option.some.inj hy'
      subst hyv
      have hxp : x = p := by
        rw [hx] at hp
        exact Option.some.inj hp
      obtain ⟨ht, hh, hcf, _⟩ := h.2 t x q hx hq
      refine ⟨ht, hh, hcf, ?_⟩
      rw [hxp]
      exact hr
    · rw [List.getElem?_set_ne (Ne.symm hti)] at hy
      exact h.2 t x y hx hy

lemma simRel_set_class_left {R : Label → Label → Prop} {xs ys : List Paragraph}
    {i : Nat} {p q : Paragraph}
    (h : SimRel R xs ys) (hp : xs[i]? = some p) (hq : ys[i]? = some q)
    (c : Label) (hr : R c q.«class») :
    SimRel R (xs.set i { p with «class» := c }) ys := by
  have hil : i < xs.length := (List.getElem?_eq_some_iff.mp hp).1
  constructor
  · simp [h.1]
  · intro t x y hx hy
    by_cases hti : t = i
    · subst hti
      have hx' : (xs.set t { p with «class» := c })[t]? = some { p with «class» := c } := by
        simp [List.getElem?_set, hil]
      have hxv : x = { p with «class» := c } := by
        rw [hx] at hx'
        exact Option.some.inj hx'
      subst hxv
      have hyq : y = q := by
        rw [hy] at hq
        exact Option.some.inj hq
      obtain ⟨ht, hh, hcf, _⟩ := h.2 t p y hp hy
      refine ⟨ht, hh, hcf, ?_⟩
      rw [hyq]
      exact hr
    · rw [List.getElem?_set_ne (Ne.symm hti)] at hx
      exact h.2 t x y hx hy

lemma simRel_drop_rel {R : Label → Label → Prop} {xs ys : List Paragraph}
    (h : SimRel R xs ys) (i : Nat)
    (hgood : ∀ a b, R a b → a = .good → b = .good) :
    (xs.drop (i + 1)).length = (ys.drop (i + 1)).length ∧
    ∀ t : Nat, ∀ p q, (xs.drop (i + 1))[t]? = some p →
      (ys.drop (i + 1))[t]? = some q →
      p.text = q.text ∧ (p.«class» = .good → q.«class» = .good) := by
  constructor
  · simp [h.1]
  · intro t p q hp hq
    rw [List.getElem?_drop] at hp hq
    obtain ⟨ht, _, _, hr⟩ := h.2 (i + 1 + t) p q hp hq
    exact ⟨ht, hgood _ _ hr⟩

lemma joint_foldl (f g : List Paragraph → Nat → List Paragraph)
    (P : List Paragraph → List Paragraph → Prop)
    (hstep : ∀ xs ys i, P xs ys → P (f xs i) (g ys i)) :
    ∀ (l : List Nat) (xs ys : List Paragraph),
      P xs ys → P (l.foldl f xs) (l.foldl g ys) := by
  intro l
  induction l with
  | nil => intro xs ys h; exact h
  | cons n ns ih => intro xs ys h; exact ih _ _ (hstep xs ys n h)

lemma pass1Step_eq (maxd : Nat) (ps : List Paragraph) (i : Nat) (p : Paragraph)
    (hp : ps[i]? = some p) :
    pass1Step maxd ps i =
      if (p.heading && p.«class» = .short) = true then
        (if headingScan maxd 0 (ps.drop (i + 1)) = true then
          ps.set i { p with «class» := .neargood }
        else ps)
      else ps := by
  unfold pass1Step
  rw [hp]

lemma pass1Step_none (maxd : Nat) (ps : List Paragraph) (i : Nat)
    (hp : ps[i]? = none) : pass1Step maxd ps i = ps := by
  unfold pass1Step
  rw [hp]

end Justext

namespace Justext

lemma pass1_joint_step (maxd : Nat) (xs ys : List Paragraph) (i : Nat)
    (h : SimRel RelB xs ys) :
    SimRel RelB (pass1Step maxd xs i) (pass1Step maxd ys i) := by
  cases hxi : xs[i]? with
  | none =>
    have hyi : ys[i]? = none := by
      cases hyi : ys[i]? with
      | none => rfl
      | some q =>
        rcases h.partner' hyi with ⟨p, hp⟩
        rw [hxi] at hp
        cases hp
    rw [pass1Step_none maxd xs i hxi, pass1Step_none maxd ys i hyi]
    exact h
  | some p =>
    rcases h.partner hxi with ⟨q, hyi⟩
    obtain ⟨htxt, hhd, hcf, hcls⟩ := h.2 i p q hxi hyi
    rw [pass1Step_eq maxd xs i p hxi, pass1Step_eq maxd ys i q hyi]
    by_cases hc : (p.heading && p.«class» = .short) = true
    · rw [if_pos hc]
      rcases Bool.and_eq_true_iff.mp hc with ⟨hph, hps⟩
      have hps' : p.«class» = .short := by simpa using hps
      rcases hcls.short hps' with hqs | hqng
      · have hc' : (q.heading && q.«class» = .short) = true := by
          simp [← hhd, hph, hqs]
        rw [if_pos hc']
        have hdrop := simRel_drop_rel h i (fun a b hr ha => hr.goodB ha)
        have hmono := headingScan_mono maxd (xs.drop (i + 1)) (ys.drop (i + 1))
          hdrop.1 hdrop.2 0
        by_cases hsx : headingScan maxd 0 (xs.drop (i + 1)) = true
        · rw [if_pos hsx, if_pos (hmono hsx)]
          exact simRel_set_class_both h hxi hyi _ _ (Or.inl (Or.inl rfl))
        · rw [if_neg hsx]
          by_cases hsy : headingScan maxd 0 (ys.drop (i + 1)) = true
          · rw [if_pos hsy]
            refine simRel_set_class_right h hxi hyi _ ?_
            rw [hps']
            exact Or.inr ⟨rfl, rfl⟩
          · rw [if_neg hsy]
            exact h
      · have hc' : ¬ ((q.heading && q.«class» = .short) = true) := by
          simp [hqng]
        rw [if_neg hc']
        by_cases hsx : headingScan maxd 0 (xs.drop (i + 1)) = true
        · rw [if_pos hsx]
          refine simRel_set_class_left h hxi hyi _ ?_
          rw [hqng]
          exact Or.inl (Or.inl rfl)
        · rw [if_neg hsx]
          exact h
    · rw [if_neg hc]
      have hc' : ¬ ((q.heading && q.«class» = .short) = true) := by
        intro hq
        rcases Bool.and_eq_true_iff.mp hq with ⟨hqh, hqs⟩
        have hqs' : q.«class» = .short := by simpa using hqs
        have hps : p.«class» = .short := hcls.short_rev hqs'
        exact hc (by simp [hhd, hqh, hps])
      rw [if_neg hc']
      exact h

lemma pass1_joint (maxd : Nat) (xs ys : List Paragraph)
    (h : SimRel RelB xs ys) :
    SimRel RelB (pass1 maxd xs) (pass1 maxd ys) := by
  unfold pass1
  rw [show ys.length = xs.length from h.1.symm]
  exact joint_foldl _ _ _ (pass1_joint_step maxd) (List.range xs.length) xs ys h

end Justext

namespace Justext

lemma clsAt_isSome_lt {ps : List Paragraph} {t : Nat} {d : Label}
    (h : clsAt ps t = some d) : t < ps.length := by
  unfold clsAt at h
  rcases Option.map_eq_some'.mp h with ⟨p, hp, _⟩
  exact (List.getElem?_eq_some_iff.mp hp).1

lemma get_next_transfer_good {xs ys : List Paragraph} (h : SimRel RelB xs ys)
    (i : Nat) (hg : get_next_neighbour i xs true = .good) :
    get_next_neighbour i ys true = .good := by
  rcases get_next_good_nec i xs hg with ⟨j, hij, hj, hmid⟩
  rcases h.clsAt_rel hj with ⟨e, he, hre⟩
  rw [hre.goodB rfl] at he
  apply get_next_good_suff i j ys hij he
  intro t ht1 ht2 d hd
  rcases h.clsAt_rel' hd with ⟨dx, hdx, hr⟩
  rcases hr.skipped (hmid t ht1 ht2 dx hdx) with h1 | h1
  · exact Or.inl h1
  · exact Or.inr (Or.inl h1)

lemma get_prev_transfer_good {xs ys : List Paragraph} (h : SimRel RelB xs ys)
    (i : Nat) (hi : i ≤ xs.length)
    (hg : get_prev_neighbour i xs true = .good) :
    get_prev_neighbour i ys true = .good := by
  rcases get_prev_good_nec i xs hi hg with ⟨j, hji, hj, hmid⟩
  rcases h.clsAt_rel hj with ⟨e, he, hre⟩
  rw [hre.goodB rfl] at he
  apply get_prev_good_suff i j ys (by rw [← h.1]; exact hi) hji he
  intro t ht1 ht2 d hd
  rcases h.clsAt_rel' hd with ⟨dx, hdx, hr⟩
  rcases hr.skipped (hmid t ht1 ht2 dx hdx) with h1 | h1
  · exact Or.inl h1
  · exact Or.inr (Or.inl h1)

lemma get_prev_transfer_ng {xs ys : List Paragraph} (h : SimRel RelB xs ys)
    (i : Nat) (hi : i ≤ xs.length)
    (hg : get_prev_neighbour i xs false = .neargood) :
    get_prev_neighbour i ys false = .neargood := by
  rcases get_prev_ng_nec i xs hi hg with ⟨j, hji, hj, hmid⟩
  rcases h.clsAt_rel hj with ⟨e, he, hre⟩
  rw [hre.ngB rfl] at he
  apply get_prev_ng_suff i j ys (by rw [← h.1]; exact hi) hji he
  intro t ht1 ht2 d hd
  rcases h.clsAt_rel' hd with ⟨dx, hdx, hr⟩
  exact hr.skipped (Or.inl (hmid t ht1 ht2 dx hdx))

lemma get_next_transfer_ng {xs ys : List Paragraph} (h : SimRel RelB xs ys)
    (i : Nat) (hg : get_next_neighbour i xs false = .neargood) :
    get_next_neighbour i ys false = .neargood := by
  rcases get_next_ng_nec i xs hg with ⟨j, hij, hj, hmid⟩
  rcases h.clsAt_rel hj with ⟨e, he, hre⟩
  rw [hre.ngB rfl] at he
  apply get_next_ng_suff i j ys hij he
  intro t ht1 ht2 d hd
  rcases h.clsAt_rel' hd with ⟨dx, hdx, hr⟩
  exact hr.skipped (Or.inl (hmid t ht1 ht2 dx hdx))

lemma pass2Decide_mono {xs ys : List Paragraph} (h : SimRel RelB xs ys)
    (i : Nat) (hi : i ≤ xs.length)
    (hg : pass2Decide xs i = .good) : pass2Decide ys i = .good := by
  rcases pass2Decide_nec_good xs i hg with
    ⟨hp, hn⟩ | ⟨hp, hn, hlp⟩ | ⟨hp, hn, hln⟩
  · exact pass2Decide_suff_both ys i
      (get_prev_transfer_good h i hi hp) (get_next_transfer_good h i hn)
  · have hn' := get_next_transfer_good h i hn
    rcases get_prev_good_or_bad i ys with hp' | hp'
    · exact pass2Decide_suff_both ys i hp' hn'
    · exact pass2Decide_suff_next ys i hn' (get_prev_transfer_ng h i hi hlp)
  · have hp' := get_prev_transfer_good h i hi hp
    rcases get_next_good_or_bad i ys with hn' | hn'
    · exact pass2Decide_suff_both ys i hp' hn'
    · exact pass2Decide_suff_prev ys i hp' (get_next_transfer_ng h i hln)

end Justext

namespace Justext

lemma clsAt_pass2 (ps : List Paragraph) (t : Nat) :
    clsAt (pass2 ps) t = (ps[t]?).map (fun p =>
      if p.«class» = .short then pass2Decide ps t else p.«class») := by
  unfold clsAt
  rw [pass2_getElem?]
  cases hp : ps[t]? with
  | none => rfl
  | some p =>
    by_cases hs : p.«class» = .short
    · simp [hs]
    · simp [hs]

/-- The crux of the monotonicity proof: a short paragraph of the first
run that sits at a position the second run promoted to neargood, and
that the first run resolved to good, is still reachable from a good
strict neighbour in the second run after its short pass: every short on
the path between the position and the witnessing good paragraph is
itself resolved to good by the staged short pass. -/
lemma GR_establish_next {xs ys : List Paragraph} (h : SimRel RelB xs ys)
    (i : Nat) (hyi : clsAt ys i = some Label.neargood)
    (hn : get_next_neighbour i xs true = .good) :
    get_next_neighbour i (pass2 ys) true = .good := by
  rcases get_next_good_nec i xs hn with ⟨j, hij, hj, hmid⟩
  rcases h.clsAt_rel hj with ⟨e, he, hre⟩
  rw [hre.goodB rfl] at he
  have hjlen : j < ys.length := clsAt_isSome_lt he
  have hmid' : ∀ t : Nat, i < t → t < j → ∀ d, clsAt ys t = some d →
      d = .short ∨ d = .neargood := by
    intro t ht1 ht2 d hd
    rcases h.clsAt_rel' hd with ⟨dx, hdx, hr⟩
    exact hr.skipped (hmid t ht1 ht2 dx hdx)
  have hj2 : clsAt (pass2 ys) j = some Label.good := by
    rw [clsAt_pass2]
    unfold clsAt at he
    rcases Option.map_eq_some'.mp he with ⟨qj, hqj, hclsj⟩
    rw [hqj, Option.map_some']
    rw [if_neg (by rw [hclsj]; simp)]
    rw [hclsj]
  apply get_next_good_suff i j (pass2 ys) hij hj2
  intro t ht1 ht2 d hd
  rw [clsAt_pass2] at hd
  rcases Option.map_eq_some'.mp hd with ⟨pt, hpt, hdt⟩
  have hct : clsAt ys t = some pt.«class» := by
    unfold clsAt
    rw [hpt, Option.map_some']
  by_cases hshort : pt.«class» = .short
  · rw [if_pos hshort] at hdt
    refine Or.inr (Or.inr ?_)
    rw [← hdt]
    apply pass2Decide_suff_next ys t
    · apply get_next_good_suff t j ys ht2 he
      intro u hu1 hu2 d' hd'
      rcases hmid' u (by omega) (by omega) d' hd' with h1 | h1
      · exact Or.inl h1
      · exact Or.inr (Or.inl h1)
    · apply get_prev_ng_suff t i ys (by omega) ht1 hyi
      intro u hu1 hu2 d' hd'
      exact hmid' u hu1 (by omega) d' hd'
  · rw [if_neg hshort] at hdt
    rcases hmid' t ht1 ht2 pt.«class» hct with h1 | h1
    · exact absurd h1 hshort
    · rw [← hdt]
      exact Or.inr (Or.inl h1)

lemma GR_establish_prev {xs ys : List Paragraph} (h : SimRel RelB xs ys)
    (i : Nat) (hi : i ≤ xs.length)
    (hyi : clsAt ys i = some Label.neargood)
    (hp : get_prev_neighbour i xs true = .good) :
    get_prev_neighbour i (pass2 ys) true = .good := by
  rcases get_prev_good_nec i xs hi hp with ⟨j, hji, hj, hmid⟩
  rcases h.clsAt_rel hj with ⟨e, he, hre⟩
  rw [hre.goodB rfl] at he
  have hilen : i ≤ ys.length := by rw [← h.1]; exact hi
  have hmid' : ∀ t : Nat, j < t → t < i → ∀ d, clsAt ys t = some d →
      d = .short ∨ d = .neargood := by
    intro t ht1 ht2 d hd
    rcases h.clsAt_rel' hd with ⟨dx, hdx, hr⟩
    exact hr.skipped (hmid t ht1 ht2 dx hdx)
  have hj2 : clsAt (pass2 ys) j = some Label.good := by
    rw [clsAt_pass2]
    unfold clsAt at he
    rcases Option.map_eq_some'.mp he with ⟨qj, hqj, hclsj⟩
    rw [hqj, Option.map_some']
    rw [if_neg (by rw [hclsj]; simp)]
    rw [hclsj]
  apply get_prev_good_suff i j (pass2 ys) (by rw [pass2_length]; exact hilen) hji hj2
  intro t ht1 ht2 d hd
  rw [clsAt_pass2] at hd
  rcases Option.map_eq_some'.mp hd with ⟨pt, hpt, hdt⟩
  have hct : clsAt ys t = some pt.«class» := by
    unfold clsAt
    rw [hpt, Option.map_some']
  by_cases hshort : pt.«class» = .short
  · rw [if_pos hshort] at hdt
    refine Or.inr (Or.inr ?_)
    rw [← hdt]
    apply pass2Decide_suff_prev ys t
    · apply get_prev_good_suff t j ys (by omega) ht1 he
      intro u hu1 hu2 d' hd'
      rcases hmid' u (by omega) (by omega) d' hd' with h1 | h1
      · exact Or.inl h1
      · exact Or.inr (Or.inl h1)
    · apply get_next_ng_suff t i ys ht2 hyi
      intro u hu1 hu2 d' hd'
      exact hmid' u (by omega) hu2 d' hd'
  · rw [if_neg hshort] at hdt
    rcases hmid' t ht1 ht2 pt.«class» hct with h1 | h1
    · exact absurd h1 hshort
    · rw [← hdt]
      exact Or.inr (Or.inl h1)

end Justext

namespace Justext

/-- The side invariant carried into the neargood pass: wherever the
first run is already good but the second run still has neargood, the
second run has a good strict neighbour on some side. -/
def GRinv (xs ys : List Paragraph) : Prop :=
  ∀ i : Nat, ∀ p q, xs[i]? = some p → ys[i]? = some q →
    p.«class» = .good → q.«class» = .neargood →
    get_prev_neighbour i ys true = .good ∨ get_next_neighbour i ys true = .good

lemma pass2_origin (ps : List Paragraph) :
    ∀ (t : Nat) (p' : Paragraph), (pass2 ps)[t]? = some p' →
      ∃ p : Paragraph, ps[t]? = some p ∧
      p' = (if p.«class» = .short then { p with «class» := pass2Decide ps t }
            else p) := by
  intro t p' hp'
  rw [pass2_getElem?] at hp'
  rcases Option.map_eq_some'.mp hp' with ⟨p, hp, hh⟩
  exact ⟨p, hp, hh.symm⟩

lemma pass2_joint {xs ys : List Paragraph} (h : SimRel RelB xs ys) :
    SimRel RelC (pass2 xs) (pass2 ys) ∧ GRinv (pass2 xs) (pass2 ys) := by
  have hlen : (pass2 xs).length = (pass2 ys).length := by
    rw [pass2_length, pass2_length, h.1]
  constructor
  · refine ⟨hlen, ?_⟩
    intro t p' q' hp' hq'
    rcases pass2_origin xs t p' hp' with ⟨p, hp, rfl⟩
    rcases pass2_origin ys t q' hq' with ⟨q, hq, rfl⟩
    obtain ⟨htxt, hhd, hcf, hcls⟩ := h.2 t p q hp hq
    have hti : t ≤ xs.length := le_of_lt (List.getElem?_eq_some_iff.mp hp).1
    by_cases hps : p.«class» = .short
    · rcases hcls.short hps with hqs | hqng
      · rw [if_pos hps, if_pos hqs]
        refine ⟨htxt, hhd, hcf, ?_⟩
        show RelC (pass2Decide xs t) (pass2Decide ys t)
        rcases pass2Decide_good_or_bad xs t with hdx | hdx
        · rw [hdx, pass2Decide_mono h t hti hdx]
          exact Or.inl rfl
        · rcases pass2Decide_good_or_bad ys t with hdy | hdy
          · rw [hdx, hdy]
            exact Or.inr (Or.inl ⟨rfl, Or.inl rfl⟩)
          · rw [hdx, hdy]
            exact Or.inl rfl
      · rw [if_pos hps, if_neg (by rw [hqng]; simp)]
        refine ⟨htxt, hhd, hcf, ?_⟩
        show RelC (pass2Decide xs t) q.«class»
        rw [hqng]
        rcases pass2Decide_good_or_bad xs t with hdx | hdx
        · rw [hdx]
          exact Or.inr (Or.inr ⟨rfl, rfl⟩)
        · rw [hdx]
          exact Or.inr (Or.inl ⟨rfl, Or.inr rfl⟩)
    · have hqs : ¬ q.«class» = .short := fun hq' => hps (hcls.short_rev hq')
      rw [if_neg hps, if_neg hqs]
      refine ⟨htxt, hhd, hcf, ?_⟩
      rcases hcls with hab | ⟨hps', _⟩
      · rcases hab with heq | ⟨hb1, hb2⟩
        · exact Or.inl heq
        · exact Or.inr (Or.inl ⟨hb1, hb2⟩)
      · exact absurd hps' hps
  · intro i p' q' hp' hq' hpg hqng
    rcases pass2_origin xs i p' hp' with ⟨p, hp, hpe⟩
    rcases pass2_origin ys i q' hq' with ⟨q, hq, hqe⟩
    obtain ⟨htxt, hhd, hcf, hcls⟩ := h.2 i p q hp hq
    have hti : i ≤ xs.length := le_of_lt (List.getElem?_eq_some_iff.mp hp).1
    have hqng' : q.«class» = .neargood := by
      by_cases hqs : q.«class» = .short
      · exfalso
        rw [hqe, if_pos hqs] at hqng
        have hd2 : pass2Decide ys i = .neargood := hqng
        rcases pass2Decide_good_or_bad ys i with hd | hd <;>
          rw [hd] at hd2 <;> cases hd2
      · rw [hqe, if_neg hqs] at hqng
        exact hqng
    by_cases hps : p.«class» = .short
    · rw [hpe, if_pos hps] at hpg
      have hdec : pass2Decide xs i = .good := hpg
      have hyi : clsAt ys i = some Label.neargood := by
        unfold clsAt
        rw [hq, Option.map_some', hqng']
      rcases pass2Decide_nec_good xs i hdec with
        ⟨hpp, hnn⟩ | ⟨_, hnn, _⟩ | ⟨hpp, _, _⟩
      · exact Or.inr (GR_establish_next h i hyi hnn)
      · exact Or.inr (GR_establish_next h i hyi hnn)
      · exact Or.inl (GR_establish_prev h i hti hyi hpp)
    · rw [hpe, if_neg hps] at hpg
      have hqg : q.«class» = .good := RelB.goodB hcls hpg
      rw [hqg] at hqng'
      cases hqng'

end Justext

namespace Justext

lemma clsAt_set_ne (ps : List Paragraph) (i u : Nat) (v : Paragraph)
    (h : i ≠ u) : clsAt (ps.set i v) u = clsAt ps u := by
  unfold clsAt
  rw [List.getElem?_set_ne h]

lemma clsAt_set_self (ps : List Paragraph) (i : Nat) (v : Paragraph)
    (h : i < ps.length) : clsAt (ps.set i v) i = some v.«class» := by
  unfold clsAt
  simp [List.getElem?_set, h]

lemma clsAt_ne_short {ps : List Paragraph} {u : Nat} {d : Label}
    (hns : ∀ y ∈ ps, y.«class» ≠ .short) (h : clsAt ps u = some d) :
    d ≠ .short := by
  unfold clsAt at h
  rcases Option.map_eq_some'.mp h with ⟨y, hy, hyd⟩
  rw [← hyd]
  exact hns y (List.getElem?_mem hy)

lemma pass3Step_none (ps : List Paragraph) (i : Nat) (hp : ps[i]? = none) :
    pass3Step ps i = ps := by
  unfold pass3Step
  rw [hp]

lemma pass3Step_id (ps : List Paragraph) (i : Nat)
    (h : ∀ p, ps[i]? = some p → p.«class» ≠ .neargood) :
    pass3Step ps i = ps := by
  cases hp : ps[i]? with
  | none => exact pass3Step_none ps i hp
  | some p =>
    unfold pass3Step
    rw [hp]
    simp [h p hp]

lemma pass3Step_eq (ps : List Paragraph) (i : Nat) (p : Paragraph)
    (hp : ps[i]? = some p) (hng : p.«class» = .neargood) :
    pass3Step ps i = ps.set i { p with «class» :=
      (if get_prev_neighbour i ps true = .good ∨
          get_next_neighbour i ps true = .good
        then Label.good else Label.bad) } := by
  unfold pass3Step
  cases hpi : ps[i]? with
  | none => rw [hpi] at hp; simp at hp
  | some p0 =>
    have hpp : p0 = p := by rw [hpi] at hp; exact Option.some.inj hp
    subst hpp
    rcases get_prev_good_or_bad i ps with h1 | h1 <;>
      rcases get_next_good_or_bad i ps with h2 | h2 <;>
        simp [hng, h1, h2]

end Justext

namespace Justext

lemma clsAt_some {ps : List Paragraph} {t : Nat} {d : Label}
    (h : clsAt ps t = some d) : ∃ p, ps[t]? = some p ∧ p.«class» = d := by
  unfold clsAt at h
  rcases Option.map_eq_some'.mp h with ⟨p, hp, hd⟩
  exact ⟨p, hp, hd⟩

lemma mid_ng_of_noshort {ps : List Paragraph}
    (hns : ∀ y ∈ ps, y.«class» ≠ .short) {u : Nat} {d : Label}
    (hd : clsAt ps u = some d)
    (hmem : d = Label.short ∨ d = Label.neargood) :
    d = Label.neargood := by
  rcases hmem with rfl | rfl
  · exact absurd rfl (clsAt_ne_short hns hd)
  · rfl

lemma GR_preserve_next {ys : List Paragraph} {i t : Nat} {q v : Paragraph}
    (hnsy : ∀ y ∈ ys, y.«class» ≠ .short)
    (hqi : ys[i]? = some q) (hqng : q.«class» = Label.neargood)
    (hv : (get_prev_neighbour i ys true = Label.good ∨
        get_next_neighbour i ys true = Label.good) → v.«class» = Label.good)
    (hg : get_next_neighbour t ys true = Label.good) :
    get_next_neighbour t (ys.set i v) true = Label.good := by
  rcases get_next_good_nec t ys hg with ⟨j, htj, hj, hmid⟩
  have hil : i < ys.length := (List.getElem?_eq_some_iff.mp hqi).1
  have hij : i ≠ j := by
    intro he
    subst he
    unfold clsAt at hj
    rw [hqi] at hj
    simp [hqng] at hj
  by_cases hin : t < i ∧ i < j
  · have hvg : v.«class» = Label.good := by
      apply hv
      refine Or.inr (get_next_good_suff i j ys hin.2 hj ?_)
      intro u hu1 hu2 d hd
      exact Or.inr (Or.inl
        (mid_ng_of_noshort hnsy hd (hmid u (by omega) hu2 d hd)))
    apply get_next_good_suff t j (ys.set i v) htj
    · rw [clsAt_set_ne ys i j v hij]
      exact hj
    · intro u hu1 hu2 d hd
      by_cases hui : u = i
      · subst hui
        rw [clsAt_set_self ys u v hil] at hd
        exact Or.inr (Or.inr ((Option.some.inj hd).symm.trans hvg))
      · rw [clsAt_set_ne ys i u v (Ne.symm hui)] at hd
        exact Or.inr (Or.inl
          (mid_ng_of_noshort hnsy hd (hmid u hu1 hu2 d hd)))
  · apply get_next_good_suff t j (ys.set i v) htj
    · rw [clsAt_set_ne ys i j v hij]
      exact hj
    · intro u hu1 hu2 d hd
      have hui : i ≠ u := by
        intro he
        exact hin (by omega)
      rw [clsAt_set_ne ys i u v hui] at hd
      exact Or.inr (Or.inl
        (mid_ng_of_noshort hnsy hd (hmid u hu1 hu2 d hd)))

lemma GR_preserve_prev {ys : List Paragraph} {i t : Nat} {q v : Paragraph}
    (hnsy : ∀ y ∈ ys, y.«class» ≠ .short)
    (hqi : ys[i]? = some q) (hqng : q.«class» = Label.neargood)
    (hv : (get_prev_neighbour i ys true = Label.good ∨
        get_next_neighbour i ys true = Label.good) → v.«class» = Label.good)
    (ht : t ≤ ys.length)
    (hg : get_prev_neighbour t ys true = Label.good) :
    get_prev_neighbour t (ys.set i v) true = Label.good := by
  rcases get_prev_good_nec t ys ht hg with ⟨j, hjt, hj, hmid⟩
  have hil : i < ys.length := (List.getElem?_eq_some_iff.mp hqi).1
  have hij : i ≠ j := by
    intro he
    subst he
    unfold clsAt at hj
    rw [hqi] at hj
    simp [hqng] at hj
  by_cases hin : j < i ∧ i < t
  · have hvg : v.«class» = Label.good := by
      apply hv
      refine Or.inl (get_prev_good_suff i j ys hil.le hin.1 hj ?_)
      intro u hu1 hu2 d hd
      exact Or.inr (Or.inl
        (mid_ng_of_noshort hnsy hd (hmid u hu1 (by omega) d hd)))
    apply get_prev_good_suff t j (ys.set i v)
        (by rw [List.length_set]; exact ht) hjt
    · rw [clsAt_set_ne ys i j v hij]
      exact hj
    · intro u hu1 hu2 d hd
      by_cases hui : u = i
      · subst hui
        rw [clsAt_set_self ys u v hil] at hd
        exact Or.inr (Or.inr ((Option.some.inj hd).symm.trans hvg))
      · rw [clsAt_set_ne ys i u v (Ne.symm hui)] at hd
        exact Or.inr (Or.inl
          (mid_ng_of_noshort hnsy hd (hmid u hu1 hu2 d hd)))
  · apply get_prev_good_suff t j (ys.set i v)
        (by rw [List.length_set]; exact ht) hjt
    · rw [clsAt_set_ne ys i j v hij]
      exact hj
    · intro u hu1 hu2 d hd
      have hui : i ≠ u := by
        intro he
        exact hin (by omega)
      rw [clsAt_set_ne ys i u v hui] at hd
      exact Or.inr (Or.inl
        (mid_ng_of_noshort hnsy hd (hmid u hu1 hu2 d hd)))

lemma GR_preserve {ys : List Paragraph} {i t : Nat} {q v : Paragraph}
    (hnsy : ∀ y ∈ ys, y.«class» ≠ .short)
    (hqi : ys[i]? = some q) (hqng : q.«class» = Label.neargood)
    (hv : (get_prev_neighbour i ys true = Label.good ∨
        get_next_neighbour i ys true = Label.good) → v.«class» = Label.good)
    (ht : t ≤ ys.length)
    (h : get_prev_neighbour t ys true = Label.good ∨
      get_next_neighbour t ys true = Label.good) :
    get_prev_neighbour t (ys.set i v) true = Label.good ∨
      get_next_neighbour t (ys.set i v) true = Label.good := by
  rcases h with h | h
  · exact Or.inl (GR_preserve_prev hnsy hqi hqng hv ht h)
  · exact Or.inr (GR_preserve_next hnsy hqi hqng hv h)

end Justext

namespace Justext

lemma pass3_transfer {xs ys : List Paragraph} {i : Nat}
    (hsim : SimRel RelC xs ys) (hGR : GRinv xs ys)
    (hnsx : ∀ p ∈ xs, p.«class» ≠ .short)
    (hnsy : ∀ q ∈ ys, q.«class» ≠ .short)
    (hyi : clsAt ys i = some Label.neargood)
    (hgood : get_prev_neighbour i xs true = Label.good ∨
      get_next_neighbour i xs true = Label.good) :
    get_prev_neighbour i ys true = Label.good ∨
      get_next_neighbour i ys true = Label.good := by
  have hiy : i < ys.length := clsAt_isSome_lt hyi
  have hix : i ≤ xs.length := by
    have := hsim.1
    omega
  rcases hgood with hprev | hnext
  · -- the first run sees a good stopper going backwards
    rcases get_prev_good_nec i xs hix hprev with ⟨j, hji, hj, hmid⟩
    have hymid : ∀ t : Nat, j < t → t < i → ∀ d, clsAt ys t = some d →
        d = Label.neargood := by
      intro t ht1 ht2 d hd
      rcases hsim.clsAt_rel' hd with ⟨d0, hd0, hrel⟩
      have hng0 : d0 = Label.neargood :=
        mid_ng_of_noshort hnsx hd0 (hmid t ht1 ht2 d0 hd0)
      exact hrel.ngC hng0
    rcases hsim.clsAt_rel hj with ⟨e, he, hrele⟩
    rcases hrele.goodC rfl with rfl | rfl
    · -- partner of the stopper is still good
      refine Or.inl (get_prev_good_suff i j ys hiy.le hji he ?_)
      intro u hu1 hu2 d hd
      exact Or.inr (Or.inl (hymid u hu1 hu2 d hd))
    · -- partner of the stopper turned neargood: use the side invariant
      rcases clsAt_some hj with ⟨pj, hpj, hpjc⟩
      rcases clsAt_some he with ⟨qj, hqj, hqjc⟩
      rcases hGR j pj qj hpj hqj hpjc hqjc with hjprev | hjnext
      · -- good further back: stopper j₃ < j < i
        have hjy : j ≤ ys.length := (clsAt_isSome_lt he).le
        rcases get_prev_good_nec j ys hjy hjprev with ⟨j3, hj3, hj3g, hmid3⟩
        refine Or.inl (get_prev_good_suff i j3 ys hiy.le (by omega) hj3g ?_)
        intro u hu1 hu2 d hd
        rcases Nat.lt_trichotomy u j with hu | hu | hu
        · exact Or.imp_right Or.inl (hmid3 u hu1 hu d hd)
        · subst hu
          rw [he] at hd
          exact Or.inr (Or.inl (Option.some.inj hd).symm)
        · exact Or.inr (Or.inl (hymid u hu hu2 d hd))
      · -- good further forward: stopper j₂ must lie beyond i
        rcases get_next_good_nec j ys hjnext with ⟨j2, hj2, hj2g, hmid2⟩
        have hij2 : i < j2 := by
          rcases Nat.lt_trichotomy j2 i with hu | hu | hu
          · have := hymid j2 hj2 hu _ hj2g
            cases this
          · rw [hu] at hj2g
            rw [hyi] at hj2g
            cases Option.some.inj hj2g
          · exact hu
        refine Or.inr (get_next_good_suff i j2 ys hij2 hj2g ?_)
        intro u hu1 hu2 d hd
        exact Or.imp_right Or.inl (hmid2 u (by omega) hu2 d hd)
  · -- the first run sees a good stopper going forwards (mirror case)
    rcases get_next_good_nec i xs hnext with ⟨j, hji, hj, hmid⟩
    have hymid : ∀ t : Nat, i < t → t < j → ∀ d, clsAt ys t = some d →
        d = Label.neargood := by
      intro t ht1 ht2 d hd
      rcases hsim.clsAt_rel' hd with ⟨d0, hd0, hrel⟩
      have hng0 : d0 = Label.neargood :=
        mid_ng_of_noshort hnsx hd0 (hmid t ht1 ht2 d0 hd0)
      exact hrel.ngC hng0
    rcases hsim.clsAt_rel hj with ⟨e, he, hrele⟩
    rcases hrele.goodC rfl with rfl | rfl
    · refine Or.inr (get_next_good_suff i j ys hji he ?_)
      intro u hu1 hu2 d hd
      exact Or.inr (Or.inl (hymid u hu1 hu2 d hd))
    · rcases clsAt_some hj with ⟨pj, hpj, hpjc⟩
      rcases clsAt_some he with ⟨qj, hqj, hqjc⟩
      rcases hGR j pj qj hpj hqj hpjc hqjc with hjprev | hjnext
      · -- good before j: its stopper j₃ must lie before i
        have hjy : j ≤ ys.length := (clsAt_isSome_lt he).le
        rcases get_prev_good_nec j ys hjy hjprev with ⟨j3, hj3, hj3g, hmid3⟩
        have hj3i : j3 < i := by
          rcases Nat.lt_trichotomy j3 i with hu | hu | hu
          · exact hu
          · rw [← hu] at hyi
            rw [hyi] at hj3g
            cases Option.some.inj hj3g
          · have := hymid j3 hu (by omega) _ hj3g
            cases this
        refine Or.inl (get_prev_good_suff i j3 ys hiy.le hj3i hj3g ?_)
        intro u hu1 hu2 d hd
        exact Or.imp_right Or.inl (hmid3 u hu1 (by omega) d hd)
      · -- good after j: stopper j₂ > j, path through j and beyond
        rcases get_next_good_nec j ys hjnext with ⟨j2, hj2, hj2g, hmid2⟩
        refine Or.inr (get_next_good_suff i j2 ys (by omega) hj2g ?_)
        intro u hu1 hu2 d hd
        rcases Nat.lt_trichotomy u j with hu | hu | hu
        · exact Or.inr (Or.inl (hymid u hu1 hu d hd))
        · subst hu
          rw [he] at hd
          exact Or.inr (Or.inl (Option.some.inj hd).symm)
        · exact Or.imp_right Or.inl (hmid2 u hu hu2 d hd)

end Justext

namespace Justext

/-- The joint invariant carried through the neargood pass. -/
def Inv3 (xs ys : List Paragraph) : Prop :=
  SimRel RelC xs ys ∧ GRinv xs ys ∧
    (∀ p ∈ xs, p.«class» ≠ .short) ∧ (∀ q ∈ ys, q.«class» ≠ .short)

lemma noshort_set {zs : List Paragraph} {i : Nat} {v : Paragraph}
    (hns : ∀ z ∈ zs, z.«class» ≠ .short) (hv : v.«class» ≠ .short) :
    ∀ z ∈ zs.set i v, z.«class» ≠ .short := by
  intro z hz
  rcases List.mem_or_eq_of_mem_set hz with h1 | rfl
  · exact hns z h1
  · exact hv

lemma GRinv_set_both {xs ys : List Paragraph} {i : Nat} {q vx vy : Paragraph}
    (hGR : GRinv xs ys)
    (hnsy : ∀ y ∈ ys, y.«class» ≠ .short)
    (hyi : ys[i]? = some q) (hqng : q.«class» = Label.neargood)
    (hvy : (get_prev_neighbour i ys true = Label.good ∨
        get_next_neighbour i ys true = Label.good) → vy.«class» = Label.good)
    (hvyn : vy.«class» ≠ Label.neargood) :
    GRinv (xs.set i vx) (ys.set i vy) := by
  intro t p' q' hp' hq' hpg hqng'
  have hil : i < ys.length := (List.getElem?_eq_some_iff.mp hyi).1
  by_cases hti : t = i
  · subst hti
    have hq'' : (ys.set t vy)[t]? = some vy := by
      simp [List.getElem?_set, hil]
    rw [hq''] at hq'
    rw [← Option.some.inj hq'] at hqng'
    exact absurd hqng' hvyn
  · rw [List.getElem?_set_ne (Ne.symm hti)] at hp' hq'
    have htlen : t ≤ ys.length :=
      le_of_lt (List.getElem?_eq_some_iff.mp hq').1
    exact GR_preserve hnsy hyi hqng hvy htlen (hGR t p' q' hp' hq' hpg hqng')

lemma GRinv_set_right {xs ys : List Paragraph} {i : Nat} {q vy : Paragraph}
    (hGR : GRinv xs ys)
    (hnsy : ∀ y ∈ ys, y.«class» ≠ .short)
    (hyi : ys[i]? = some q) (hqng : q.«class» = Label.neargood)
    (hvy : (get_prev_neighbour i ys true = Label.good ∨
        get_next_neighbour i ys true = Label.good) → vy.«class» = Label.good)
    (hvyn : vy.«class» ≠ Label.neargood) :
    GRinv xs (ys.set i vy) := by
  intro t p' q' hp' hq' hpg hqng'
  have hil : i < ys.length := (List.getElem?_eq_some_iff.mp hyi).1
  by_cases hti : t = i
  · subst hti
    have hq'' : (ys.set t vy)[t]? = some vy := by
      simp [List.getElem?_set, hil]
    rw [hq''] at hq'
    rw [← Option.some.inj hq'] at hqng'
    exact absurd hqng' hvyn
  · rw [List.getElem?_set_ne (Ne.symm hti)] at hq'
    have htlen : t ≤ ys.length :=
      le_of_lt (List.getElem?_eq_some_iff.mp hq').1
    exact GR_preserve hnsy hyi hqng hvy htlen (hGR t p' q' hp' hq' hpg hqng')

end Justext

namespace Justext

lemma pass3_joint_step : ∀ (xs ys : List Paragraph) (i : Nat),
    Inv3 xs ys → Inv3 (pass3Step xs i) (pass3Step ys i) := by
  intro xs ys i h
  obtain ⟨hsim, hGR, hnsx, hnsy⟩ := h
  cases hxi : xs[i]? with
  | none =>
    have hilen : xs.length ≤ i := by
      by_contra hlt
      push_neg at hlt
      rw [List.getElem?_eq_getElem hlt] at hxi
      cases hxi
    have hyi : ys[i]? = none :=
      List.getElem?_eq_none (by rw [← hsim.1]; exact hilen)
    rw [pass3Step_none xs i hxi, pass3Step_none ys i hyi]
    exact ⟨hsim, hGR, hnsx, hnsy⟩
  | some p =>
    rcases hsim.partner hxi with ⟨q, hyi⟩
    have hrel : RelC p.«class» q.«class» := (hsim.2 i p q hxi hyi).2.2.2
    by_cases hpng : p.«class» = .neargood
    · -- both runs resolve their neargood paragraph at i
      have hqng : q.«class» = .neargood := hrel.ngC hpng
      have hyiC : clsAt ys i = some Label.neargood := by
        unfold clsAt
        rw [hyi]
        simp [hqng]
      rw [pass3Step_eq xs i p hxi hpng, pass3Step_eq ys i q hyi hqng]
      by_cases hsx : get_prev_neighbour i xs true = Label.good ∨
          get_next_neighbour i xs true = Label.good
      · have hsy : get_prev_neighbour i ys true = Label.good ∨
            get_next_neighbour i ys true = Label.good :=
          pass3_transfer hsim hGR hnsx hnsy hyiC hsx
        rw [if_pos hsx, if_pos hsy]
        refine ⟨simRel_set_class_both hsim hxi hyi _ _ (Or.inl rfl),
          GRinv_set_both hGR hnsy hyi hqng (fun _ => rfl) (by simp),
          noshort_set hnsx (by simp), noshort_set hnsy (by simp)⟩
      · rw [if_neg hsx]
        by_cases hsy : get_prev_neighbour i ys true = Label.good ∨
            get_next_neighbour i ys true = Label.good
        · rw [if_pos hsy]
          refine ⟨simRel_set_class_both hsim hxi hyi _ _
              (Or.inr (Or.inl ⟨rfl, Or.inl rfl⟩)),
            GRinv_set_both hGR hnsy hyi hqng (fun _ => rfl) (by simp),
            noshort_set hnsx (by simp), noshort_set hnsy (by simp)⟩
        · rw [if_neg hsy]
          refine ⟨simRel_set_class_both hsim hxi hyi _ _ (Or.inl rfl),
            GRinv_set_both hGR hnsy hyi hqng (fun hs => absurd hs hsy)
              (by simp),
            noshort_set hnsx (by simp), noshort_set hnsy (by simp)⟩
    · -- the first run does not touch i
      have hxid : pass3Step xs i = xs := by
        apply pass3Step_id
        intro p0 hp0
        rw [hxi] at hp0
        rw [← Option.some.inj hp0]
        exact hpng
      rw [hxid]
      by_cases hqng : q.«class» = .neargood
      · -- the second run resolves i
        have hyiC : clsAt ys i = some Label.neargood := by
          unfold clsAt
          rw [hyi]
          simp [hqng]
        rw [pass3Step_eq ys i q hyi hqng]
        have hpcase : p.«class» = .bad ∨ p.«class» = .good := by
          unfold RelC at hrel
          rcases hrel with heq | ⟨hpb, _⟩ | ⟨hpg, _⟩
          · rw [heq] at hpng
            exact absurd hqng hpng
          · exact Or.inl hpb
          · exact Or.inr hpg
        rcases hpcase with hpb | hpg
        · -- (bad, neargood): any resolution keeps the pair in RelC
          by_cases hsy : get_prev_neighbour i ys true = Label.good ∨
              get_next_neighbour i ys true = Label.good
          · rw [if_pos hsy]
            refine ⟨simRel_set_class_right hsim hxi hyi _
                (by rw [hpb]; exact Or.inr (Or.inl ⟨rfl, Or.inl rfl⟩)),
              GRinv_set_right hGR hnsy hyi hqng (fun _ => rfl) (by simp),
              hnsx, noshort_set hnsy (by simp)⟩
          · rw [if_neg hsy]
            refine ⟨simRel_set_class_right hsim hxi hyi _
                (by rw [hpb]; exact Or.inl rfl),
              GRinv_set_right hGR hnsy hyi hqng (fun hs => absurd hs hsy)
                (by simp),
              hnsx, noshort_set hnsy (by simp)⟩
        · -- (good, neargood): the side invariant forces a good resolution
          have hsy : get_prev_neighbour i ys true = Label.good ∨
              get_next_neighbour i ys true = Label.good :=
            hGR i p q hxi hyi hpg hqng
          rw [if_pos hsy]
          refine ⟨simRel_set_class_right hsim hxi hyi _
              (by rw [hpg]; exact Or.inl rfl),
            GRinv_set_right hGR hnsy hyi hqng (fun _ => rfl) (by simp),
            hnsx, noshort_set hnsy (by simp)⟩
      · -- neither run touches i
        have hyid : pass3Step ys i = ys := by
          apply pass3Step_id
          intro q0 hq0
          rw [hyi] at hq0
          rw [← Option.some.inj hq0]
          exact hqng
        rw [hyid]
        exact ⟨hsim, hGR, hnsx, hnsy⟩

lemma pass3_joint {xs ys : List Paragraph} (h : Inv3 xs ys) :
    Inv3 (pass3 xs) (pass3 ys) := by
  unfold pass3
  rw [show ys.length = xs.length from h.1.1.symm]
  exact joint_foldl _ _ Inv3 pass3_joint_step (List.range xs.length) xs ys h

lemma simRel_C_to_D {xs ys : List Paragraph}
    (h : SimRel RelC xs ys)
    (hy : ∀ q ∈ ys, q.«class» = .good ∨ q.«class» = .bad) :
    SimRel RelD xs ys := by
  refine ⟨h.1, ?_⟩
  intro t p q hp hq
  obtain ⟨ht, hh, hcf, hr⟩ := h.2 t p q hp hq
  refine ⟨ht, hh, hcf, ?_⟩
  have hq' := hy q (List.getElem?_mem hq)
  unfold RelC at hr
  unfold RelD
  rcases hr with heq | ⟨hpb, h1 | h1⟩ | ⟨hpg, h1⟩
  · exact Or.inl heq
  · exact Or.inr ⟨hpb, h1⟩
  · rcases hq' with h2 | h2 <;> rw [h1] at h2 <;> cases h2
  · rcases hq' with h2 | h2 <;> rw [h1] at h2 <;> cases h2

end Justext

namespace Justext

lemma pass4Step_none (maxd : Nat) (ps : List Paragraph) (i : Nat)
    (hp : ps[i]? = none) : pass4Step maxd ps i = ps := by
  unfold pass4Step
  rw [hp]

lemma pass4Step_id (maxd : Nat) (ps : List Paragraph) (i : Nat)
    (h : ∀ p, ps[i]? = some p →
      ¬(p.heading = true ∧ p.«class» = .bad ∧ p.cfclass ≠ .bad)) :
    pass4Step maxd ps i = ps := by
  cases hp : ps[i]? with
  | none => exact pass4Step_none maxd ps i hp
  | some p =>
    unfold pass4Step
    rw [hp]
    by_cases hcond : (p.heading && p.«class» = .bad && !(p.cfclass = .bad)) = true
    · exfalso
      apply h p hp
      have := hcond
      simp [Bool.and_eq_true_iff] at this
      exact ⟨this.1.1, this.1.2, this.2⟩
    · simp [hcond]

lemma pass4Step_eq (maxd : Nat) (ps : List Paragraph) (i : Nat) (p : Paragraph)
    (hp : ps[i]? = some p) (hh : p.heading = true) (hb : p.«class» = .bad)
    (hcf : p.cfclass ≠ .bad) :
    pass4Step maxd ps i =
      (if headingScan maxd 0 (ps.drop (i + 1)) = true then
        ps.set i { p with «class» := .good } else ps) := by
  cases hpi : ps[i]? with
  | none =>
    rw [hpi] at hp
    simp at hp
  | some p0 =>
    have hpp : p0 = p := by
      rw [hpi] at hp
      exact Option.some.inj hp
    rw [hpp] at hpi
    unfold pass4Step
    rw [hpi]
    have hcond : (p.heading && p.«class» = .bad && !(p.cfclass = .bad)) = true := by
      simp [Bool.and_eq_true_iff, hh, hb, hcf]
    by_cases hscan : headingScan maxd 0 (ps.drop (i + 1)) = true
    · simp [hcond, hscan]
    · simp [hcond, hscan]

lemma pass4_joint_step (maxd : Nat) : ∀ (xs ys : List Paragraph) (i : Nat),
    SimRel RelD xs ys → SimRel RelD (pass4Step maxd xs i) (pass4Step maxd ys i) := by
  intro xs ys i hsim
  cases hxi : xs[i]? with
  | none =>
    have hilen : xs.length ≤ i := by
      by_contra hlt
      push_neg at hlt
      rw [List.getElem?_eq_getElem hlt] at hxi
      cases hxi
    have hyi : ys[i]? = none :=
      List.getElem?_eq_none (by rw [← hsim.1]; exact hilen)
    rw [pass4Step_none maxd xs i hxi, pass4Step_none maxd ys i hyi]
    exact hsim
  | some p =>
    rcases hsim.partner hxi with ⟨q, hyi⟩
    obtain ⟨htx, hhd, hcf, hrel⟩ := hsim.2 i p q hxi hyi
    by_cases hcond : p.heading = true ∧ p.«class» = .bad ∧ p.cfclass ≠ .bad
    · obtain ⟨hph, hpb, hpcf⟩ := hcond
      have hqclass : q.«class» = .bad ∨ q.«class» = .good := by
        unfold RelD at hrel
        rcases hrel with he | ⟨_, hqg⟩
        · rw [← he, hpb]
          exact Or.inl rfl
        · exact Or.inr hqg
      rcases hqclass with hqb | hqg
      · -- the second run is a candidate as well
        have hqh : q.heading = true := hhd ▸ hph
        have hqcf : q.cfclass ≠ .bad := by
          rcases hcf with he | ⟨hpb', _⟩
          · rw [← he]
            exact hpcf
          · exact absurd hpb' hpcf
        rw [pass4Step_eq maxd xs i p hxi hph hpb hpcf,
          pass4Step_eq maxd ys i q hyi hqh hqb hqcf]
        by_cases hscan : headingScan maxd 0 (xs.drop (i + 1)) = true
        · have hdrop := simRel_drop_rel hsim i (fun a b hr ha => hr.goodD ha)
          have hscany : headingScan maxd 0 (ys.drop (i + 1)) = true :=
            headingScan_mono maxd _ _ hdrop.1 hdrop.2 0 hscan
          rw [if_pos hscan, if_pos hscany]
          exact simRel_set_class_both hsim hxi hyi _ _ (Or.inl rfl)
        · rw [if_neg hscan]
          by_cases hscany : headingScan maxd 0 (ys.drop (i + 1)) = true
          · rw [if_pos hscany]
            exact simRel_set_class_right hsim hxi hyi _ (Or.inr ⟨hpb, rfl⟩)
          · rw [if_neg hscany]
            exact hsim
      · -- the second run is already good at i and is not a candidate
        have hyid : pass4Step maxd ys i = ys := by
          apply pass4Step_id
          intro q0 hq0
          rw [hyi] at hq0
          rw [← Option.some.inj hq0]
          intro hc
          rw [hqg] at hc
          cases hc.2.1
        rw [pass4Step_eq maxd xs i p hxi hph hpb hpcf, hyid]
        by_cases hscan : headingScan maxd 0 (xs.drop (i + 1)) = true
        · rw [if_pos hscan]
          exact simRel_set_class_left hsim hxi hyi _ (by rw [hqg]; exact Or.inl rfl)
        · rw [if_neg hscan]
          exact hsim
    · -- the first run does not touch i
      have hxid : pass4Step maxd xs i = xs := by
        apply pass4Step_id
        intro p0 hp0
        rw [hxi] at hp0
        rw [← Option.some.inj hp0]
        exact hcond
      rw [hxid]
      by_cases hqcond : q.heading = true ∧ q.«class» = .bad ∧ q.cfclass ≠ .bad
      · obtain ⟨hqh, hqb, hqcf⟩ := hqcond
        have hpb : p.«class» = .bad := by
          unfold RelD at hrel
          rcases hrel with he | ⟨hpb, hqg⟩
          · rw [he, hqb]
          · rw [hqb] at hqg
            cases hqg
        rw [pass4Step_eq maxd ys i q hyi hqh hqb hqcf]
        by_cases hscany : headingScan maxd 0 (ys.drop (i + 1)) = true
        · rw [if_pos hscany]
          exact simRel_set_class_right hsim hxi hyi _ (Or.inr ⟨hpb, rfl⟩)
        · rw [if_neg hscany]
          exact hsim
      · rw [pass4Step_id maxd ys i (fun q0 hq0 => by
          rw [hyi] at hq0
          rw [← Option.some.inj hq0]
          exact hqcond)]
        exact hsim

lemma pass4_joint (maxd : Nat) {xs ys : List Paragraph}
    (h : SimRel RelD xs ys) :
    SimRel RelD (pass4 maxd xs) (pass4 maxd ys) := by
  unfold pass4
  rw [show ys.length = xs.length from h.1.symm]
  exact joint_foldl _ _ (SimRel RelD) (pass4_joint_step maxd)
    (List.range xs.length) xs ys h

end Justext

namespace Justext

lemma simRel_mono {R S : Label → Label → Prop} {xs ys : List Paragraph}
    (h : SimRel R xs ys) (hRS : ∀ a b, R a b → S a b) : SimRel S xs ys := by
  refine ⟨h.1, ?_⟩
  intro t p q hp hq
  obtain ⟨ht, hh, hcf, hr⟩ := h.2 t p q hp hq
  exact ⟨ht, hh, hcf, hRS _ _ hr⟩

lemma labelFixed_revise (maxd : Nat) (ps : List Paragraph) :
    ∀ q ∈ revise_paragraph_classification maxd ps, labelFixed q := by
  intro q hq
  unfold revise_paragraph_classification at hq
  exact labelFixed_pass4 maxd _
    (labelFixed_pass3 _ (labelFixed_pass2 _
      (labelFixed_pass1 maxd _ (labelFixed_copy ps)))) q hq

lemma revise_preserves_cfclass_pred (maxd : Nat) (ps : List Paragraph)
    (P : Label → Prop) (h : ∀ p ∈ ps, P p.cfclass) :
    ∀ q ∈ revise_paragraph_classification maxd ps, P q.cfclass := by
  have hcopy : ∀ q ∈ copyClasses ps, P q.cfclass := by
    intro q hq
    rcases List.mem_map.mp hq with ⟨p, hp, rfl⟩
    exact h p hp
  have h1 : ∀ q ∈ pass1 maxd (copyClasses ps), P q.cfclass := by
    refine foldl_mem_inv (pass1Step maxd) _ ?_ _ _ hcopy
    intro rs i hrs q hq
    rcases pass1Step_cases maxd rs i with heq | ⟨p, hpi, _, _, heq⟩
    · rw [heq] at hq
      exact hrs q hq
    · rw [heq] at hq
      rcases List.mem_or_eq_of_mem_set hq with hm1 | rfl
      · exact hrs q hm1
      · exact hrs p (List.getElem?_mem hpi)
  have h2 : ∀ q ∈ pass2 (pass1 maxd (copyClasses ps)), P q.cfclass := by
    intro q hq
    rcases pass2From_mem _ _ 0 q hq with ⟨hmem, _⟩ | ⟨p, j, hmem, _, rfl⟩
    · exact h1 q hmem
    · exact h1 p hmem
  have h3 : ∀ q ∈ pass3 (pass2 (pass1 maxd (copyClasses ps))), P q.cfclass := by
    refine foldl_mem_inv pass3Step _ ?_ _ _ h2
    intro rs i hrs q hq
    rcases pass3Step_cases rs i with ⟨heq, _⟩ | ⟨p, c, hpi, _, _, heq⟩
    · rw [heq] at hq
      exact hrs q hq
    · rw [heq] at hq
      rcases List.mem_or_eq_of_mem_set hq with hm1 | rfl
      · exact hrs q hm1
      · exact hrs p (List.getElem?_mem hpi)
  intro q hq
  unfold revise_paragraph_classification at hq
  refine foldl_mem_inv (pass4Step maxd) _ ?_ _ _ h3 q hq
  intro rs i hrs x hx
  rcases pass4Step_cases maxd rs i with heq | ⟨p, hpi, _, _, _, heq⟩
  · rw [heq] at hx
    exact hrs x hx
  · rw [heq] at hx
    rcases List.mem_or_eq_of_mem_set hx with hm1 | rfl
    · exact hrs x hm1
    · exact hrs p (List.getElem?_mem hpi)

/-- C4: with all other options fixed, raising `max_link_density` never
turns a final good paragraph bad: any paragraph whose final class is
good under threshold `m` is still good under any threshold `m' ≥ m`. -/
theorem link_density_monotone (events : List SaxEvent) (stoplist : List Str)
    (o : Options) (m' : ℚ) (maxd : Nat) (hm : o.max_link_density ≤ m')
    (i : Nat) (p q : Paragraph)
    (hp : (justext events stoplist o maxd)[i]? = some p)
    (hq : (justext events stoplist { o with max_link_density := m' } maxd)[i]?
      = some q)
    (hpg : p.«class» = Label.good) : q.«class» = Label.good := by
  by_cases h0 : 0 ≤ o.max_link_density
  · have hinit := simRel_init stoplist o m' (make_paragraphs events) hm h0
    have hB := simRel_mono hinit (fun a b h => RelA.toB h)
    have h1 := pass1_joint maxd _ _ hB
    have h2 := pass2_joint h1
    have h3 : Inv3 (pass2 (pass1 maxd (copyClasses
          (classify_paragraphs stoplist o (make_paragraphs events)))))
        (pass2 (pass1 maxd (copyClasses
          (classify_paragraphs stoplist { o with max_link_density := m' }
            (make_paragraphs events))))) :=
      ⟨h2.1, h2.2, pass2_no_short _, pass2_no_short _⟩
    have h4 := pass3_joint h3
    have hD := simRel_C_to_D h4.1 (pass3_output _ (pass2_no_short _))
    have h5 := pass4_joint maxd hD
    unfold justext revise_paragraph_classification at hp hq
    obtain ⟨_, _, _, hrel⟩ := h5.2 i p q hp hq
    exact hrel.goodD hpg
  · push_neg at h0
    have hbadcf : ∀ r ∈ classify_paragraphs stoplist o (make_paragraphs events),
        r.cfclass = .bad := by
      intro r hr
      rcases List.mem_map.mp hr with ⟨p0, _, rfl⟩
      show cfclassOf stoplist o p0 = .bad
      unfold cfclassOf
      rw [if_pos (lt_of_lt_of_le h0 (link_densityOf_nonneg p0))]
    have hpmem : p ∈ revise_paragraph_classification maxd
        (classify_paragraphs stoplist o (make_paragraphs events)) := by
      unfold justext at hp
      exact List.getElem?_mem hp
    have hpcf : p.cfclass = .bad :=
      revise_preserves_cfclass_pred maxd _ (fun c => c = .bad) hbadcf p hpmem
    have hfix := labelFixed_revise maxd _ p hpmem
    rw [hfix.2 hpcf] at hpg
    exact absurd hpg (by decide)

end Justext

namespace Justext

/-- A 204-character text made of a repeated stop-word, long enough to
classify good. -/
def goodTextW : Str := (List.replicate 41 ("stop ".toList)).flatten

/-- Event stream for a document whose single paragraph classifies good. -/
def eventsGoodDoc : List SaxEvent :=
  [.startTag "html".toList, .startTag "body".toList, .startTag "p".toList,
   .startTag "kw".toList, .chars goodTextW, .endTag "kw".toList,
   .endTag "p".toList, .endTag "body".toList, .endTag "html".toList]

/-- Stop-list for the witness document. -/
def stopGood : List Str := ["stop".toList]

/-- Default options for the witness run. -/
def optsW : Options := {}

/-- The single output paragraph of the witness run at the default
threshold. -/
def pGoodW : Paragraph :=
  ((justext eventsGoodDoc stopGood optsW
    MAX_HEADING_DISTANCE_DEFAULT)[0]?).getD shortParagraph

/-- The single output paragraph of the witness run at the raised
threshold 1. -/
def qGoodW : Paragraph :=
  ((justext eventsGoodDoc stopGood { optsW with max_link_density := 1 }
    MAX_HEADING_DISTANCE_DEFAULT)[0]?).getD shortParagraph

set_option maxRecDepth 40000 in
/-- Witness for `link_density_monotone` on a concrete document: the
paragraph is good at the default threshold and stays good at 1. -/
theorem link_density_monotone_witness :
    optsW.max_link_density ≤ 1 ∧
    (justext eventsGoodDoc stopGood optsW MAX_HEADING_DISTANCE_DEFAULT)[0]?
      = some pGoodW ∧
    (justext eventsGoodDoc stopGood { optsW with max_link_density := 1 }
      MAX_HEADING_DISTANCE_DEFAULT)[0]? = some qGoodW ∧
    pGoodW.«class» = Label.good ∧ qGoodW.«class» = Label.good :=
  ⟨by decide, by decide, by decide, by decide,
    link_density_monotone eventsGoodDoc stopGood optsW 1
      MAX_HEADING_DISTANCE_DEFAULT (by decide) 0 pGoodW qGoodW
      (by decide) (by decide) (by decide)⟩

end Justext
